import Mathlib

/-!
# terraform-provider-sendgrid: request executor, resource operations, secret generation

A shallow embedding of `sendgrid/request.go` and of the secret generator, the import-ID
parsers, the delete and update operations and the reconciliation probes of
`sendgrid/resource_subuser.go` and `sendgrid/resource_api_key.go`, followed by the
properties established about them.

Conventions of the embedding:
* a Go `int` is a Lean `Int`; where the source can leave the 64-bit range the
  wrap-around is written out (`wrapInt`);
* a Go `byte` is a `Nat` below 256, a `[]byte` is a `List Nat`;
* a Go call returning `(value, error)` that may also panic returns a `GoResult`;
* a `time.Duration` is an `Int` number of nanoseconds.
-/

namespace Sendgrid

/-! ## Go runtime conventions -/

/-- Outcome of a Go call of type `(T, error)`: a value with a nil error, a non-nil
error, or a run-time panic. -/
inductive GoResult (α : Type) where
  | ok (v : α)
  | err (e : String)
  | panic (msg : String)
deriving DecidableEq, Repr

/-- Two's-complement wrap-around of a 64-bit signed Go `int`. -/
def wrapInt (x : Int) : Int := (x + 2 ^ 63) % 2 ^ 64 - 2 ^ 63

/-- Largest Go `int` on a 64-bit platform. -/
def maxInt : Int := 2 ^ 63 - 1

/-! ## Secret generation (`resource_subuser.go`) -/

/-- The constant `numbers` of `genPassword`, as bytes. -/
def numbers : List Nat := "0123456789".toList.map Char.toNat

/-- The constant `letters` of `genPassword`, as bytes. -/
def letters : List Nat :=
  "ABCDEFGHIJKLMNOPQRSTUVWXYZabcdefghijklmnopqrstuvwxyz".toList.map Char.toNat

/-- The constant `validChars = numbers + letters + "!@#$%^&*()-_=+"`. -/
def validChars : List Nat :=
  numbers ++ letters ++ "!@#$%^&*()-_=+".toList.map Char.toNat

/-- The surroundings of `randomBytes`.  The random source behind `crypto/rand.Read`
either fails with an error or delivers the bytes `byteAt 0, byteAt 1, ...` (each
reduced to a byte); `memory` is the largest number of bytes that the runtime can
provide for one slice. -/
structure RandSource where
  readErr : Option String
  byteAt : Nat → Nat
  memory : Nat

/-- The constant `maxAlloc` of the Go runtime on a 64-bit platform with 48 address
bits: `make` rejects a slice of more bytes. -/
def maxAlloc : Int := 2 ^ 48

/-- Go `randomBytes`: `make([]byte, n)` panics with "len out of range" on a negative
length and on a length above `maxAlloc`, and the program dies with "out of memory"
(recorded as a panic too) when the runtime cannot provide `n` bytes; a failing
`rand.Read` gives `(nil, err)`; otherwise the `n` bytes read are returned. -/
def randomBytes (src : RandSource) (n : Int) : GoResult (List Nat) :=
  if n < 0 ∨ maxAlloc < n then .panic "makeslice: len out of range"
  else if (src.memory : Int) < n then .panic "out of memory"
  else
    match src.readErr with
    | some e => .err e
    | none => .ok ((List.range n.toNat).map (fun k => src.byteAt k % 256))

/-- The expression `validChars[b % byte(len(validChars))]` for a byte `b`. -/
def validCharOf (b : Nat) : Nat := validChars.getD (b % validChars.length) 0

/-- The first loop of `genPassword`:
`for i := 0; i < length; i++ { bytes[i] = validChars[bytes[i] % byte(len(validChars))] }`. -/
def mapValidChars (length : Int) (bytes : List Nat) : List Nat :=
  (List.range length.toNat).foldl (fun bs i => bs.set i (validCharOf (bs.getD i 0))) bytes

/-- Go `genPassword(length)`.  The index expressions `bytes[length]` and
`bytes[length+1]` panic when out of range, and `% length` panics for `length = 0`;
`%` on `int` is Go's truncated remainder. -/
def genPassword (src : RandSource) (length : Int) : GoResult (List Nat) :=
  match randomBytes src (wrapInt (length + 2)) with
  | .panic m => .panic m
  | .err e => .err e
  | .ok bytes0 =>
    let bytes := mapValidChars length bytes0
    if length < 0 ∨ (bytes.length : Int) ≤ length then .panic "index out of range"
    else if length = 0 then .panic "integer divide by zero"
    else
      let i : Int := Int.tmod (bytes.getD length.toNat 0) length
      if (bytes.length : Int) ≤ length + 1 then .panic "index out of range"
      else
        let i2 : Int := Int.tmod (bytes.getD (length + 1).toNat 0) length
        let i2 : Int := if i = i2 then Int.tmod (i2 + 1) length else i2
        let bytes1 := bytes.set i.toNat
          (numbers.getD (bytes.getD length.toNat 0 % numbers.length) 0)
        let bytes2 := bytes1.set i2.toNat
          (letters.getD (bytes1.getD (length + 1).toNat 0 % letters.length) 0)
        .ok (bytes2.take length.toNat)

/-- An ASCII digit `'0'..'9'`. -/
def isDigit (c : Nat) : Prop := 48 ≤ c ∧ c ≤ 57

/-- An ASCII letter `'A'..'Z'` or `'a'..'z'`. -/
def isLetter (c : Nat) : Prop := (65 ≤ c ∧ c ≤ 90) ∨ (97 ≤ c ∧ c ≤ 122)

instance (c : Nat) : Decidable (isDigit c) := by unfold isDigit; infer_instance

instance (c : Nat) : Decidable (isLetter c) := by unfold isLetter; infer_instance

/-- Number of byte values `b` in `0..255` that the mapping `b ↦ validChars[b % 76]`
sends to the character `c`. -/
def preimageCount (c : Nat) : Nat :=
  ((List.range 256).filter (fun b => decide (validCharOf b = c))).length

/-- The byte `k` of the slice that `randomBytes` hands to `genPassword`. -/
def randByte (src : RandSource) (k : Nat) : Nat := src.byteAt k % 256

/-- The first derived index of `genPassword`, `int(bytes[length]) % length`, for a
length `n`. -/
def digitIndex (src : RandSource) (n : Nat) : Nat := randByte src n % n

/-- The second derived index of `genPassword`, `int(bytes[length+1]) % length`, moved
one up (modulo the length) when it collides with the first. -/
def letterIndex (src : RandSource) (n : Nat) : Nat :=
  if digitIndex src n = randByte src (n + 1) % n then (randByte src (n + 1) % n + 1) % n
  else randByte src (n + 1) % n

/-- The byte at position `k` of a secret of length `n`, read off the three
assignments of `genPassword`: the last one (the letter) wins over the digit, which
wins over the alphabet character. -/
def secretAt (src : RandSource) (n : Nat) (k : Nat) : Nat :=
  if k = letterIndex src n then letters.getD (randByte src (n + 1) % 52) 0
  else if k = digitIndex src n then numbers.getD (randByte src n % 10) 0
  else validCharOf (randByte src k)

/-! ## Request execution (`request.go`) -/

/-- The constant `defaultBackoff = 5 * time.Second`, in nanoseconds. -/
def defaultBackoff : Int := 5 * 1000000000

/-- The constant `defaultRetries`. -/
def defaultRetries : Int := 0

/-- The constant `http.StatusTooManyRequests`. -/
def statusTooManyRequests : Int := 429

/-- The part of `rest.Request` that identifies one HTTP operation. -/
structure Request where
  Method : String
  BaseURL : String
  Headers : List (String × String)
  QueryParams : List (String × String)
  Body : String
deriving DecidableEq, Repr

/-- Go `rest.Response`; the header map is an association list from a header name to
its ordered values. -/
structure Response where
  StatusCode : Int
  Body : String
  Headers : List (String × List String)
deriving DecidableEq, Repr

/-- Map index `res.Headers[name]`: the values stored under `name`, the nil slice
when the key is absent. -/
def Response.header (res : Response) (name : String) : List String :=
  (res.Headers.lookup name).getD []

/-- The error values that `doRequest` handles: an error handed back by
`sendgrid.API`, the package's `ratelimitError`, and an error built by `fmt.Errorf`. -/
inductive GoError where
  | transport (msg : String)
  | ratelimitError (timeout : Int)
  | errorf (msg : String)
deriving DecidableEq, Repr

/-- The `Error()` method of each error value. -/
def GoError.Error : GoError → String
  | .transport msg => msg
  | .ratelimitError _ => "rate limited"
  | .errorf msg => msg

/-- Whether an error is a `ratelimitError` (the test `err.(ratelimitError)`). -/
def GoError.isRatelimit : GoError → Bool
  | .ratelimitError _ => true
  | _ => false

/-- What one call of `sendgrid.API(request)` hands back: a response with a nil error,
or a non-nil error together with a possibly nil response. -/
inductive APIResult where
  | response (res : Response)
  | failure (res : Option Response) (msg : String)
deriving DecidableEq, Repr

/-- The outside world of `doRequest`: `api request k` is the outcome of the `k`-th
call (counted from 0) of `sendgrid.API`, and `now k` is the clock reading, in
nanoseconds since the Unix epoch, when the `k`-th response is classified. -/
structure World where
  api : Request → Nat → APIResult
  now : Nat → Int

/-- Go `requestOpts`; `rateLimitChannel` is `none` for a nil channel. -/
structure requestOpts where
  desiredStatus : List Int
  numRetries : Int
  backoffDuration : Int
  rateLimitChannel : Option Nat
deriving DecidableEq, Repr

/-- Go `requestOption`: a function that updates the options. -/
abbrev requestOption := requestOpts → requestOpts

/-- Go `withRetry`. -/
def withRetry (n : Int) : requestOption :=
  fun o => { o with numRetries := n }

/-- Go `withStatus`. -/
def withStatus (status : Int) : requestOption :=
  fun o => { o with desiredStatus := o.desiredStatus ++ [status] }

/-- Go `withRateLimit`. -/
def withRateLimit (ch : Option Nat) : requestOption :=
  fun o => { o with rateLimitChannel := ch }

/-- The options `doRequest` starts from:
`&requestOpts{backoffDuration: defaultBackoff, numRetries: defaultRetries}`. -/
def defaultOpts : requestOpts :=
  { desiredStatus := [], numRetries := defaultRetries,
    backoffDuration := defaultBackoff, rateLimitChannel := none }

/-- The loop `for _, opt := range opts { o = opt(o) }` of `doRequest`. -/
def applyOpts (opts : List requestOption) : requestOpts :=
  opts.foldl (fun o opt => opt o) defaultOpts

/-- Go `sliceContainsInt`. -/
def sliceContainsInt : List Int → Int → Bool
  | [], _ => false
  | si :: rest, i => if si = i then true else sliceContainsInt rest i

/-- Value of a decimal digit character. -/
def digitVal (c : Char) : Option Nat :=
  if 48 ≤ c.toNat ∧ c.toNat ≤ 57 then some (c.toNat - 48) else none

/-- The value of a string of decimal digits, `none` if some character is not a digit. -/
def parseDigits (cs : List Char) : Option Nat :=
  cs.foldl (fun acc c => acc.bind (fun a => (digitVal c).map (fun d => a * 10 + d))) (some 0)

/-- Go `strconv.ParseInt(s, 10, bitSize)`, `none` standing for a non-nil error: an
optional sign, then at least one decimal digit and nothing else, and the value must
fit in a signed integer of `bitSize` bits. -/
def parseInt (s : String) (bitSize : Nat) : Option Int :=
  let cs := s.toList
  let signed : Bool × List Char :=
    match cs with
    | '+' :: rest => (false, rest)
    | '-' :: rest => (true, rest)
    | _ => (false, cs)
  if signed.2 = [] then none
  else
    match parseDigits signed.2 with
    | none => none
    | some v =>
      if signed.1 then
        if v ≤ 2 ^ (bitSize - 1) then some (-(v : Int)) else none
      else
        if v < 2 ^ (bitSize - 1) then some (v : Int) else none

/-- Smallest `time.Duration`. -/
def minDuration : Int := -(2 ^ 63)

/-- Largest `time.Duration`. -/
def maxDuration : Int := 2 ^ 63 - 1

/-- Saturation of an exact number of nanoseconds to the range of `time.Duration`, as
`Time.Sub` does. -/
def clampDuration (d : Int) : Int :=
  if d < minDuration then minDuration else if maxDuration < d then maxDuration else d

/-- The constant `unixToInternal` of package `time`: seconds from year 1 to 1970. -/
def unixToInternal : Int := 62135596800

/-- The expression `time.Until(time.Unix(resetTime, 0).Add(time.Second))` when the
clock reads `now` nanoseconds since the Unix epoch.  `time.Unix` stores
`resetTime + unixToInternal` in a 64-bit field, `Add` adds one second to it, and
`Until` is `Time.Sub`, which saturates the difference to the range of a Duration. -/
def untilReset (now resetTime : Int) : Int :=
  let ext := wrapInt (wrapInt (resetTime + unixToInternal) + 1)
  clampDuration ((ext - unixToInternal) * 1000000000 - now)

/-- What `doRequest` does to the outside, in order. -/
inductive Event where
  | sleep (d : Int)
  | acquire (ch : Nat)
  | call (request : Request)
deriving DecidableEq, Repr

/-- The variables of `doRequest` that live across loop iterations, with the events
performed so far. -/
structure Exec where
  res : Option Response
  err : Option GoError
  wait : Int
  trace : List Event
deriving DecidableEq, Repr

/-- How a call of `doRequest` ends. -/
inductive Outcome where
  | returned (res : Option Response) (err : Option GoError)
  | panicked (msg : String)
deriving DecidableEq, Repr

/-- A complete run of `doRequest`: the events performed and how it ended. -/
structure Run where
  trace : List Event
  outcome : Outcome
deriving DecidableEq, Repr

/-- Result of one loop iteration: either `return` from inside the loop or go on. -/
inductive Step where
  | ret (trace : List Event) (res : Response)
  | next (st : Exec)
deriving DecidableEq, Repr

/-- The events of one loop iteration: `time.Sleep(wait)`, the receive from the
rate-limit channel when there is one, and the call `sendgrid.API(request)`. -/
def attemptEvents (o : requestOpts) (request : Request) (wait : Int) : List Event :=
  [Event.sleep wait] ++
    (match o.rateLimitChannel with
      | some ch => [Event.acquire ch]
      | none => []) ++
    [Event.call request]

/-- The body of the `for` loop of `doRequest`, for the `k`-th attempt.

In the throttling branch the source writes `resetTime, err := strconv.ParseInt(...)`
inside the block of `if len(reset) == 1`, which declares a new `err` local to that
block; the assignment `err = ratelimitError{timeout: duration}` therefore stores into
that local variable (`blockErr` below) and the result variable `err` keeps its value,
which is nil in this branch. -/
def attempt (w : World) (request : Request) (o : requestOpts) (k : Nat) (st : Exec) : Step :=
  let tr := st.trace ++ attemptEvents o request st.wait
  let wait := o.backoffDuration
  match w.api request k with
  | .failure res msg => .next ⟨res, some (.transport msg), wait, tr⟩
  | .response res =>
    if sliceContainsInt o.desiredStatus res.StatusCode then .ret tr res
    else if res.StatusCode = statusTooManyRequests then
      let reset := res.header "X-Ratelimit-Reset"
      if reset.length = 1 then
        match parseInt (reset.getD 0 "") 64 with
        | some resetTime =>
          let duration := untilReset (w.now k) resetTime
          let _blockErr : Option GoError := some (.ratelimitError duration)
          .next ⟨some res, none, duration, tr⟩
        | none => .next ⟨some res, none, wait, tr⟩
      else .next ⟨some res, none, wait, tr⟩
    else .next ⟨some res, none, wait, tr⟩

/-- The code of `doRequest` after the loop: with a nil `err` and a non-empty
`desiredStatus` it reads `res.StatusCode` (a nil dereference when no attempt was made)
and builds the "unexpected status code" error; then it returns `res` and `err`. -/
def finishOutcome (o : requestOpts) (res : Option Response) (err : Option GoError) : Outcome :=
  match err with
  | some e => .returned res (some e)
  | none =>
    if o.desiredStatus.length > 0 then
      match res with
      | none => .panicked "invalid memory address or nil pointer dereference"
      | some r =>
        if !sliceContainsInt o.desiredStatus r.StatusCode then
          .returned (some r) (some (.errorf
            ("response contained unexpected status code: " ++ toString r.StatusCode)))
        else .returned (some r) none
    else .returned res none

/-- The end of `doRequest` when the loop runs out. -/
def finish (o : requestOpts) (st : Exec) : Run :=
  ⟨st.trace, finishOutcome o st.res st.err⟩

/-- The loop `for i := -1; i < o.numRetries; i++` with `n` iterations left, the next
attempt being the `k`-th. -/
def attempts (w : World) (request : Request) (o : requestOpts) : Nat → Nat → Exec → Run
  | 0, _, st => finish o st
  | n + 1, k, st =>
    match attempt w request o k st with
    | .ret tr res => ⟨tr, .returned (some res) none⟩
    | .next st1 => attempts w request o n (k + 1) st1

/-- Go `doRequest(request, opts...)`.  The loop variable runs from `-1` up to
`o.numRetries - 1`, that is `o.numRetries + 1` iterations, none when that is negative;
`wait` starts at the zero Duration and `res`, `err` start nil. -/
def doRequest (w : World) (request : Request) (opts : List requestOption) : Run :=
  let o := applyOpts opts
  attempts w request o (o.numRetries + 1).toNat 0 ⟨none, none, 0, []⟩

/-- The arguments of the `time.Sleep` calls of a run, in order. -/
def sleeps : List Event → List Int
  | [] => []
  | .sleep d :: rest => d :: sleeps rest
  | _ :: rest => sleeps rest

/-- Number of `sendgrid.API` calls in a run. -/
def callCount : List Event → Nat
  | [] => 0
  | .call _ :: rest => callCount rest + 1
  | _ :: rest => callCount rest

/-- Number of receives from the rate-limit channel in a run. -/
def acquireCount : List Event → Nat
  | [] => 0
  | .acquire _ :: rest => acquireCount rest + 1
  | _ :: rest => acquireCount rest

/-- The three option constructors of `request.go`, as data. -/
inductive OptionCall where
  | retry (n : Int)
  | status (code : Int)
  | rateLimit (ch : Option Nat)
deriving DecidableEq, Repr

/-- The `requestOption` that an option constructor call builds. -/
def OptionCall.toOption : OptionCall → requestOption
  | .retry n => withRetry n
  | .status code => withStatus code
  | .rateLimit ch => withRateLimit ch

/-- Whether the `k`-th attempt ends the loop: a response with a nil error whose status
is in `desiredStatus`. -/
def accepted (o : requestOpts) : APIResult → Bool
  | .response res => sliceContainsInt o.desiredStatus res.StatusCode
  | .failure _ _ => false

/-- The value of `res` after a call of `sendgrid.API`. -/
def APIResult.res : APIResult → Option Response
  | .response res => some res
  | .failure res _ => res

/-- The value of `err` after a call of `sendgrid.API`. -/
def APIResult.err : APIResult → Option GoError
  | .response _ => none
  | .failure _ msg => some (.transport msg)

/-- The reset epoch of a throttling answer: the attempt was answered, the status is
429 and not in the acceptable set, and the response carries exactly one
`X-Ratelimit-Reset` value, which parses as a base-10 64-bit integer. -/
def throttleReset (o : requestOpts) : APIResult → Option Int
  | .failure _ _ => none
  | .response res =>
    if sliceContainsInt o.desiredStatus res.StatusCode = false ∧
        res.StatusCode = statusTooManyRequests then
      match res.header "X-Ratelimit-Reset" with
      | [v] => parseInt v 64
      | _ => none
    else none

/-- The value of `wait` that the `k`-th attempt leaves for the next iteration. -/
def nextWait (w : World) (request : Request) (o : requestOpts) (k : Nat) : Int :=
  match throttleReset o (w.api request k) with
  | some resetTime => untilReset (w.now k) resetTime
  | none => o.backoffDuration

/-- Number of attempts that the loop makes when `m` iterations are left and the next
attempt is the `k`-th: it stops after the first accepted attempt. -/
def attemptsMade (w : World) (request : Request) (o : requestOpts) : Nat → Nat → Nat
  | 0, _ => 0
  | m + 1, k =>
    if accepted o (w.api request k) then 1 else attemptsMade w request o m (k + 1) + 1

/-- One second, as a `time.Duration`. -/
def second : Int := 1000000000

/-- A delete request, as `resourceSubuserDelete` builds it. -/
def exampleRequest : Request :=
  ⟨"DELETE", "https://api.sendgrid.com/v3/subusers/jane", [], [], ""⟩

/-- A throttling response: status 429 with the single header value `reset`. -/
def throttled (reset : String) : Response :=
  ⟨429, "", [("X-Ratelimit-Reset", [reset])]⟩

/-- A world whose every call is answered by `res`, with the clock standing at `now`
nanoseconds since the Unix epoch. -/
def constWorld (res : Response) (now : Int) : World :=
  ⟨fun _ _ => .response res, fun _ => now⟩

/-- The arguments of the `withRetry` calls of an option list, in order. -/
def retryArgs (calls : List OptionCall) : List Int :=
  calls.filterMap (fun c => match c with
    | .retry n => some n
    | _ => none)

/-- The arguments of the `withStatus` calls of an option list, in order. -/
def statusArgs (calls : List OptionCall) : List Int :=
  calls.filterMap (fun c => match c with
    | .status code => some code
    | _ => none)

/-- The arguments of the `withRateLimit` calls of an option list, in order. -/
def rateLimitArgs (calls : List OptionCall) : List (Option Nat) :=
  calls.filterMap (fun c => match c with
    | .rateLimit ch => some ch
    | _ => none)

/-! ## Slice comparison (`request.go`) -/

/-- The inner loop of `sliceContentsAreEqual`: whether some `b[j]` equals `x`. -/
def foundIn {α : Type} [DecidableEq α] (x : α) : List α → Bool
  | [] => false
  | y :: rest => if x = y then true else foundIn x rest

/-- The outer loop of `sliceContentsAreEqual`: every `a[i]` is found in `b`. -/
def allFound {α : Type} [DecidableEq α] : List α → List α → Bool
  | [], _ => true
  | x :: rest, b => if !foundIn x b then false else allFound rest b

/-- Go `sliceContentsAreEqual(a, b)`.  The elements are `interface{}` values of one
comparable dynamic type (strings in both callers), compared with `==`. -/
def sliceContentsAreEqual {α : Type} [DecidableEq α] (a b : List α) : Bool :=
  if a.length ≠ b.length then false else allFound a b

/-! ## Import identifiers (`resource_api_key.go`, `resource_subuser.go`) -/

/-- The step `m := Index(s, sep); a[i] = s[:m]; s = s[m+len(sep):]` of
`strings.SplitN` for a one-character separator: the text before the first separator
and the text after it, `none` when there is no separator. -/
def cutAt (sep : Char) : List Char → Option (List Char × List Char)
  | [] => none
  | c :: cs =>
    if c = sep then some ([], cs)
    else
      match cutAt sep cs with
      | none => none
      | some (pre, post) => some (c :: pre, post)

/-- Go `strings.SplitN(s, sep, n)` for a one-character separator and `n ≥ 0`: at most
`n` fields, the last one being the unsplit remainder. -/
def splitN (sep : Char) : Nat → List Char → List (List Char)
  | 0, _ => []
  | 1, s => [s]
  | n + 2, s =>
    match cutAt sep s with
    | none => [s]
    | some (pre, post) => pre :: splitN sep (n + 1) post

/-- The call `strings.SplitN(id, ":", 3)` of both import-ID parsers. -/
def importParts (id : String) : List String :=
  (splitN ':' 3 id.toList).map String.mk

/-- Go `parseAPIKeyImportID`: `.ok (realID, apiKeyDestination, onBehalfOf)` for a nil
error, `.error` with the message of the error otherwise. -/
def parseAPIKeyImportID (id : String) : Except String (String × String × String) :=
  let parts := importParts id
  if parts.length ≠ 3 ∨ parts.getD 0 "" = "" ∨ parts.getD 1 "" = "" then
    .error ("unexpected format of ID (" ++ id ++
      "), expected id:api_key_destination:on_behalf_of")
  else .ok (parts.getD 0 "", parts.getD 1 "", parts.getD 2 "")

/-- The map `{destination: passDest, length: passLen}` that `parseSubuserImportID`
returns as the only element of the password list. -/
structure PasswordBlock where
  destination : String
  length : Int
deriving DecidableEq, Repr

/-- Go `parseSubuserImportID`: `.ok (realID, password)` for a nil error, `.error` with
the message of the error otherwise. -/
def parseSubuserImportID (id : String) : Except String (String × List PasswordBlock) :=
  let parts := importParts id
  if parts.length ≠ 3 ∨ parts.getD 0 "" = "" ∨ parts.getD 1 "" = "" ∨
      parts.getD 2 "" = "" then
    .error ("unexpected format of ID (" ++ id ++
      "), expected id:password_destination:password_length")
  else
    match parseInt (parts.getD 2 "") 32 with
    | none => .error ("invalid password length: " ++ parts.getD 2 "")
    | some passLen => .ok (parts.getD 0 "", [⟨parts.getD 1 "", passLen⟩])

/-! ## Resource operations (`resource_subuser.go`, `resource_api_key.go`) -/

/-- The constant `sendgridAddress`. -/
def sendgridAddress : String := "https://api.sendgrid.com"

/-- The constant `http.StatusOK`. -/
def statusOK : Int := 200

/-- The constant `http.StatusNoContent`. -/
def statusNoContent : Int := 204

/-- The constant `http.StatusNotFound`. -/
def statusNotFound : Int := 404

/-- The constants `statusWaiting` and `statusDone`. -/
def statusWaiting : String := "waiting"

/-- The constant `statusDone`. -/
def statusDone : String := "done"

/-- The package variable `deleteSubuserRate`, a ticker channel. -/
def deleteSubuserRate : Nat := 1

/-- The package variable `deleteAPIKeyRate`, a ticker channel. -/
def deleteAPIKeyRate : Nat := 3

/-- The constant `headerOnBehalfOf`. -/
def headerOnBehalfOf : String := "on-behalf-of"

/-- Go type `subuser`. -/
structure subuser where
  Username : String
  Email : String
  Disabled : Bool
deriving DecidableEq, Repr

/-- Go type `apiKey`; the scopes are `interface{}` values holding strings. -/
structure apiKey where
  Name : String
  APIKey : String
  APIKeyID : String
  Scopes : List String
deriving DecidableEq, Repr

/-- The library functions that the resource code calls and that are no part of the
package: `sendgrid.GetRequest(key, endpoint, host)` and `json.Unmarshal` into each of
the target types (`.error` carries the message of a non-nil error). -/
structure Library where
  GetRequest : String → String → String → Request
  unmarshalSubuser : String → Except String subuser
  unmarshalAPIKey : String → Except String apiKey
  unmarshalDomain : String → Except String Int
  unmarshalIPs : String → Except String (List String)

/-- An `error` value of the resource layer: an error of `doRequest` passed on as it
is, an error wrapped by `errors.Wrap(cause, message)`, or the error of another
library call. -/
inductive ResourceError where
  | base (e : GoError)
  | wrap (cause : ResourceError) (message : String)
  | other (msg : String)
deriving DecidableEq, Repr

/-- The `Error()` text of a resource-layer error. -/
def ResourceError.Error : ResourceError → String
  | .base e => e.Error
  | .wrap cause message => message ++ ": " ++ cause.Error
  | .other msg => msg

/-- The type assertion `err.(ratelimitError)`: it succeeds only for an error value
whose dynamic type is `ratelimitError`, and yields its timeout. -/
def ResourceError.asRatelimitError : ResourceError → Option Int
  | .base (.ratelimitError timeout) => some timeout
  | _ => none

/-- How a call of a resource function ends: it returns, or it panics. -/
inductive CallResult (α : Type) where
  | returned (v : α)
  | panicked (msg : String)
deriving DecidableEq, Repr

/-- Map assignment `request.Headers[name] = value`. -/
def Request.setHeader (request : Request) (name value : String) : Request :=
  { request with Headers := (name, value) :: request.Headers.filter (fun h => h.1 != name) }

/-- The request that `resourceSubuserDelete` builds. -/
def subuserDeleteRequest (lib : Library) (apiKey id : String) : Request :=
  { lib.GetRequest apiKey ("/v3/subusers/" ++ id) sendgridAddress with Method := "DELETE" }

/-- The call `doRequest(request, withStatus(http.StatusNoContent),
withRateLimit(deleteSubuserRate), withRetry(5))` of `resourceSubuserDelete`. -/
def subuserDeleteCall (lib : Library) (w : World) (apiKey id : String) : Run :=
  doRequest w (subuserDeleteRequest lib apiKey id)
    [withStatus statusNoContent, withRateLimit (some deleteSubuserRate), withRetry 5]

/-- The code of both delete functions after `doRequest`:
`if err == nil || res.StatusCode == http.StatusNotFound { return nil }` and
`return errors.Wrap(err, message)`.  With a non-nil `err` the condition reads
`res.StatusCode`, a nil dereference when `res` is nil. -/
def deleteResult (message : String) : Outcome → CallResult (Option ResourceError)
  | .panicked msg => .panicked msg
  | .returned _ none => .returned none
  | .returned none (some _) => .panicked "invalid memory address or nil pointer dereference"
  | .returned (some res) (some e) =>
    if res.StatusCode = statusNotFound then .returned none
    else .returned (some (.wrap (.base e) message))

/-- Go `resourceSubuserDelete`, for the API key of the provider configuration and the
resource id `d.Id()`. -/
def resourceSubuserDelete (lib : Library) (w : World) (apiKey id : String) :
    CallResult (Option ResourceError) :=
  deleteResult "failed to delete subuser" (subuserDeleteCall lib w apiKey id).outcome

/-- The request that `resourceAPIKeyDelete` builds: the on-behalf-of header is set when
the attribute is not empty. -/
def apiKeyDeleteRequest (lib : Library) (apiKey id onBehalfOf : String) : Request :=
  let request :=
    { lib.GetRequest apiKey ("/v3/api_keys/" ++ id) sendgridAddress with Method := "DELETE" }
  if onBehalfOf ≠ "" then request.setHeader headerOnBehalfOf onBehalfOf else request

/-- The call `doRequest(request, withStatus(http.StatusNoContent),
withRateLimit(deleteAPIKeyRate), withRetry(5))` of `resourceAPIKeyDelete`. -/
def apiKeyDeleteCall (lib : Library) (w : World) (apiKey id onBehalfOf : String) : Run :=
  doRequest w (apiKeyDeleteRequest lib apiKey id onBehalfOf)
    [withStatus statusNoContent, withRateLimit (some deleteAPIKeyRate), withRetry 5]

/-- Go `resourceAPIKeyDelete`. -/
def resourceAPIKeyDelete (lib : Library) (w : World) (apiKey id onBehalfOf : String) :
    CallResult (Option ResourceError) :=
  deleteResult "failed to delete API key" (apiKeyDeleteCall lib w apiKey id onBehalfOf).outcome

/-- A library whose `GetRequest` sets the base URL and the authorization header and
whose decoders reject every body; used for concrete runs. -/
def exampleLibrary : Library :=
  { GetRequest := fun key endpoint host =>
      ⟨"", host ++ endpoint, [("Authorization", "Bearer " ++ key)], [], ""⟩
    unmarshalSubuser := fun _ => .error "unexpected end of JSON input"
    unmarshalAPIKey := fun _ => .error "unexpected end of JSON input"
    unmarshalDomain := fun _ => .error "unexpected end of JSON input"
    unmarshalIPs := fun _ => .error "unexpected end of JSON input" }

/-- A world whose every call fails at transport level: a nil response and an error. -/
def failingWorld (msg : String) : World :=
  ⟨fun _ _ => .failure none msg, fun _ => 0⟩

/-- Go `getSubuser`: the pair `(user, err)` that it returns. -/
def getSubuser (lib : Library) (w : World) (apiKey name : String) :
    CallResult (Option subuser × Option ResourceError) :=
  let request :=
    { lib.GetRequest apiKey ("/v3/subusers/" ++ name) sendgridAddress with Method := "GET" }
  match (doRequest w request [withStatus statusOK, withStatus statusNotFound]).outcome with
  | .panicked msg => .panicked msg
  | .returned (some res) err =>
    if res.StatusCode = statusNotFound then .returned (none, none)
    else
      match err with
      | some e => .returned (none, some (.wrap (.base e) "failed to query subuser"))
      | none =>
        match lib.unmarshalSubuser res.Body with
        | .error msg => .returned (none,
            some (.wrap (.other msg) "failed to unmarshal subuser query response"))
        | .ok user => .returned (some user, none)
  | .returned none (some e) =>
    .returned (none, some (.wrap (.base e) "failed to query subuser"))
  | .returned none none => .panicked "invalid memory address or nil pointer dereference"

/-- Go `getAPIKey`: the pair `(key, err)` that it returns. -/
def getAPIKey (lib : Library) (w : World) (sendgridAPIKey id onBehalfOf : String) :
    CallResult (Option apiKey × Option ResourceError) :=
  let request :=
    { lib.GetRequest sendgridAPIKey ("/v3/api_keys/" ++ id) sendgridAddress with
      Method := "GET" }
  let request := if onBehalfOf ≠ "" then request.setHeader headerOnBehalfOf onBehalfOf
    else request
  match (doRequest w request [withStatus statusOK, withStatus statusNotFound]).outcome with
  | .panicked msg => .panicked msg
  | .returned _ (some e) => .returned (none, some (.wrap (.base e) "failed to query API key"))
  | .returned none none => .panicked "invalid memory address or nil pointer dereference"
  | .returned (some res) none =>
    if res.StatusCode = statusNotFound then .returned (none, none)
    else
      match lib.unmarshalAPIKey res.Body with
      | .error msg => .returned (none,
          some (.wrap (.other msg) "failed to unmarshal apiKey query response"))
      | .ok k => if k.Name = "" then .returned (none, none) else .returned (some k, none)

/-- Go `getDomain`: the pair `(id, err)` that it returns. -/
def getDomain (lib : Library) (w : World) (apiKey username : String) :
    CallResult (String × Option ResourceError) :=
  let request :=
    { lib.GetRequest apiKey "/v3/whitelabel/domains/subuser" sendgridAddress with
      QueryParams := [("username", username)], Method := "GET" }
  match (doRequest w request [withStatus statusOK]).outcome with
  | .panicked msg => .panicked msg
  | .returned _ (some e) => .returned ("", some (.wrap (.base e) "failed to query domain"))
  | .returned none none => .panicked "invalid memory address or nil pointer dereference"
  | .returned (some res) none =>
    match lib.unmarshalDomain res.Body with
    | .error msg => .returned ("",
        some (.wrap (.other msg) "failed to unmarshal domain query response"))
    | .ok domainID => .returned (toString domainID, none)

/-- Go `getIPs`: the pair `(ips, err)` that it returns. -/
def getIPs (lib : Library) (w : World) (apiKey username : String) :
    CallResult (List String × Option ResourceError) :=
  let request :=
    { lib.GetRequest apiKey "/v3/ips" sendgridAddress with
      Method := "GET", QueryParams := [("subuser", username), ("limit", "500")] }
  match (doRequest w request [withStatus statusOK]).outcome with
  | .panicked msg => .panicked msg
  | .returned _ (some e) => .returned ([], some (.wrap (.base e) "failed to query IPs"))
  | .returned none none => .panicked "invalid memory address or nil pointer dereference"
  | .returned (some res) none =>
    match lib.unmarshalIPs res.Body with
    | .error msg => .returned ([],
        some (.wrap (.other msg) "failed to unmarshal IP query response"))
    | .ok ips => .returned (ips, none)

/-- The first result of a `Refresh` function, when it is not nil. -/
inductive ProbeValue where
  | user (u : subuser)
  | key (k : apiKey)
  | text (s : String)
  | list (l : List String)
deriving DecidableEq, Repr

/-- What a `Refresh` function returns, `(result, state, err)`, together with the
argument of the `time.Sleep` call of its throttling branch when that branch ran. -/
structure RefreshResult where
  result : Option ProbeValue
  state : String
  err : Option ResourceError
  slept : Option Int
deriving DecidableEq, Repr

/-- The `Refresh` function of `waitForSubuser`. -/
def waitForSubuserRefresh (lib : Library) (w : World) (apiKey username email : String)
    (disabled : Bool) : CallResult RefreshResult :=
  match getSubuser lib w apiKey username with
  | .panicked msg => .panicked msg
  | .returned (user, err) =>
    match err.bind ResourceError.asRatelimitError with
    | some timeout => .returned ⟨none, statusWaiting, none, some timeout⟩
    | none =>
      match err with
      | some e => .returned ⟨none, "", some e, none⟩
      | none =>
        match user with
        | none => .returned ⟨none, statusWaiting, none, none⟩
        | some u =>
          if u.Username ≠ username then .returned ⟨none, statusWaiting, none, none⟩
          else if u.Email ≠ email then .returned ⟨none, statusWaiting, none, none⟩
          else if u.Disabled ≠ disabled then .returned ⟨none, statusWaiting, none, none⟩
          else .returned ⟨some (.user u), statusDone, none, none⟩

/-- The `Refresh` function of `waitForDomain`. -/
def waitForDomainRefresh (lib : Library) (w : World) (apiKey username domain : String) :
    CallResult RefreshResult :=
  match getDomain lib w apiKey username with
  | .panicked msg => .panicked msg
  | .returned (gotDomain, err) =>
    match err.bind ResourceError.asRatelimitError with
    | some timeout => .returned ⟨some (.text ""), statusWaiting, none, some timeout⟩
    | none =>
      match err with
      | some e => .returned ⟨some (.text ""), "", some e, none⟩
      | none =>
        if gotDomain ≠ domain then .returned ⟨some (.text ""), statusWaiting, none, none⟩
        else .returned ⟨some (.text domain), statusDone, none, none⟩

/-- The `Refresh` function of `waitForIPs`. -/
def waitForIPsRefresh (lib : Library) (w : World) (apiKey username : String)
    (ips : List String) : CallResult RefreshResult :=
  match getIPs lib w apiKey username with
  | .panicked msg => .panicked msg
  | .returned (gotIPs, err) =>
    match err.bind ResourceError.asRatelimitError with
    | some timeout => .returned ⟨some (.text ""), statusWaiting, none, some timeout⟩
    | none =>
      match err with
      | some e => .returned ⟨some (.text ""), "", some e, none⟩
      | none =>
        if !sliceContentsAreEqual gotIPs ips then
          .returned ⟨none, statusWaiting, none, none⟩
        else .returned ⟨some (.list ips), statusDone, none, none⟩

/-- The `Refresh` function of `waitForAPIKey`. -/
def waitForAPIKeyRefresh (lib : Library) (w : World) (sendgridAPIKey id onBehalfOf : String)
    (name : String) (scopes : List String) : CallResult RefreshResult :=
  match getAPIKey lib w sendgridAPIKey id onBehalfOf with
  | .panicked msg => .panicked msg
  | .returned (key, err) =>
    match err.bind ResourceError.asRatelimitError with
    | some timeout => .returned ⟨none, statusWaiting, none, some timeout⟩
    | none =>
      match err with
      | some e => .returned ⟨none, "", some e, none⟩
      | none =>
        match key with
        | none => .returned ⟨none, statusWaiting, none, none⟩
        | some k =>
          if k.Name ≠ name then .returned ⟨none, statusWaiting, none, none⟩
          else if !sliceContentsAreEqual k.Scopes scopes then
            .returned ⟨none, statusWaiting, none, none⟩
          else .returned ⟨some (.key k), statusDone, none, none⟩

/-! ## Reconciliation (`StateChangeConf.WaitForState`) -/

/-- The fields of `resource.StateChangeConf` of terraform-plugin-sdk that decide how
`WaitForState` counts the results of `Refresh`.  The durations `Timeout`, `Delay` and
`MinTimeout` decide only when the probes run and when the wait is given up. -/
structure StateChangeConf where
  Pending : List String
  Target : List String
  ContinuousTargetOccurence : Nat
  NotFoundChecks : Nat
deriving DecidableEq, Repr

/-- The `StateChangeConf` that `waitForAPIKey`, `waitForSubuser`, `waitForDomain` and
`waitForIPs` build: `Pending: [statusWaiting]`, `Target: [statusDone]`,
`ContinuousTargetOccurence: 3`, and `NotFoundChecks` left at its zero value. -/
def waitConf : StateChangeConf :=
  { Pending := [statusWaiting], Target := [statusDone], ContinuousTargetOccurence := 3,
    NotFoundChecks := 0 }

/-- The errors with which `WaitForState` ends: the error of a `Refresh` call, a
`NotFoundError` with its number of retries, an `UnexpectedStateError` with the state
seen, or a `TimeoutError`. -/
inductive WaitError where
  | refresh (e : ResourceError)
  | notFound (retries : Nat)
  | unexpectedState (state : String)
  | timeout
deriving DecidableEq, Repr

/-- How `WaitForState` ends, with the number of `Refresh` calls made: it returns the
result of the last call and a nil error, it returns an error, or a `Refresh` call
panics. -/
inductive WaitResult where
  | done (probes : Nat) (result : Option ProbeValue)
  | failed (probes : Nat) (err : WaitError)
  | panicked (msg : String)
deriving DecidableEq, Repr

/-- The loop `for _, allowed := range conf.Target` of `WaitForState`: each entry equal
to the current state sets `found` and increments `targetOccurence`, and the wait is
done (`none`) when the count equals `ContinuousTargetOccurence`; otherwise the new
`found` and `targetOccurence` are returned. -/
def scanTarget (continuous : Nat) (currentState : String) :
    List String → Bool → Nat → Option (Bool × Nat)
  | [], found, targetOccurence => some (found, targetOccurence)
  | allowed :: rest, found, targetOccurence =>
    if currentState = allowed then
      if continuous = targetOccurence + 1 then none
      else scanTarget continuous currentState rest true (targetOccurence + 1)
    else scanTarget continuous currentState rest found targetOccurence

/-- The loop `for _, allowed := range conf.Pending` of `WaitForState`: the first entry
equal to the current state sets `found`, resets `targetOccurence` to zero and ends the
loop. -/
def scanPending (currentState : String) : List String → Bool → Nat → Bool × Nat
  | [], found, targetOccurence => (found, targetOccurence)
  | allowed :: rest, found, targetOccurence =>
    if currentState = allowed then (true, 0)
    else scanPending currentState rest found targetOccurence

/-- The refresh loop of `WaitForState` (terraform-plugin-sdk, `helper/resource`).  The
list holds the outcomes of the successive `Refresh` calls that happen before the
timeout; `notfoundTick` and `targetOccurence` are the two counters of the loop and
`probes` is the number of calls made.

A non-nil error ends the wait.  A nil result with a non-empty `Target` takes the
not-found branch: it increments `notfoundTick`, gives up with a `NotFoundError` above
`NotFoundChecks`, and looks at neither `Target` nor `Pending`, so it leaves
`targetOccurence` as it is.  A non-nil result resets `notfoundTick` and is matched
against `Target` and then `Pending`. -/
def refreshLoop (conf : StateChangeConf) :
    List (CallResult RefreshResult) → Nat → Nat → Nat → WaitResult
  | [], _, _, probes => .failed probes .timeout
  | .panicked msg :: _, _, _, _ => .panicked msg
  | .returned r :: rest, notfoundTick, targetOccurence, probes =>
    match r.err with
    | some e => .failed (probes + 1) (.refresh e)
    | none =>
      match r.result with
      | none =>
        if conf.Target.length = 0 then
          if conf.ContinuousTargetOccurence = targetOccurence + 1 then
            .done (probes + 1) none
          else refreshLoop conf rest notfoundTick (targetOccurence + 1) (probes + 1)
        else if notfoundTick + 1 > conf.NotFoundChecks then
          .failed (probes + 1) (.notFound (notfoundTick + 1))
        else refreshLoop conf rest (notfoundTick + 1) targetOccurence (probes + 1)
      | some v =>
        match scanTarget conf.ContinuousTargetOccurence r.state conf.Target false
            targetOccurence with
        | none => .done (probes + 1) (some v)
        | some (found, occurence) =>
          if (scanPending r.state conf.Pending found occurence).1 = false ∧
              conf.Pending.length > 0 then
            .failed (probes + 1) (.unexpectedState r.state)
          else
            refreshLoop conf rest 0 (scanPending r.state conf.Pending found occurence).2
              (probes + 1)

/-- Go `(*StateChangeConf).WaitForState` of terraform-plugin-sdk, on the outcomes of
the `Refresh` calls that happen before the timeout: zero values of `NotFoundChecks`
and `ContinuousTargetOccurence` are replaced by 20 and 1, and both counters start at
zero. -/
def WaitForState (conf : StateChangeConf) (refreshes : List (CallResult RefreshResult)) :
    WaitResult :=
  refreshLoop
    { conf with
      NotFoundChecks := if conf.NotFoundChecks = 0 then 20 else conf.NotFoundChecks
      ContinuousTargetOccurence :=
        if conf.ContinuousTargetOccurence = 0 then 1 else conf.ContinuousTargetOccurence }
    refreshes 0 0 0

/-- The call `createStateConf.WaitForState()` of `waitForSubuser`; `worlds` holds the
world of each probe that runs before the timeout.  The function returns nil when the
wait is done and an error built from the error of the wait otherwise. -/
def waitForSubuserState (lib : Library) (worlds : List World)
    (apiKey username email : String) (disabled : Bool) : WaitResult :=
  WaitForState waitConf
    (worlds.map (fun w => waitForSubuserRefresh lib w apiKey username email disabled))

/-- The call `createStateConf.WaitForState()` of `waitForDomain`. -/
def waitForDomainState (lib : Library) (worlds : List World)
    (apiKey username domain : String) : WaitResult :=
  WaitForState waitConf
    (worlds.map (fun w => waitForDomainRefresh lib w apiKey username domain))

/-- The call `createStateConf.WaitForState()` of `waitForIPs`. -/
def waitForIPsState (lib : Library) (worlds : List World) (apiKey username : String)
    (ips : List String) : WaitResult :=
  WaitForState waitConf (worlds.map (fun w => waitForIPsRefresh lib w apiKey username ips))

/-- The call `createStateConf.WaitForState()` of `waitForAPIKey`. -/
def waitForAPIKeyState (lib : Library) (worlds : List World)
    (sendgridAPIKey id onBehalfOf name : String) (scopes : List String) : WaitResult :=
  WaitForState waitConf
    (worlds.map (fun w => waitForAPIKeyRefresh lib w sendgridAPIKey id onBehalfOf name scopes))

/-- A library for concrete runs whose decoders know a few bodies: `"jane"` is the
subuser jane (disabled), `"ci"` the API key ci with the scope `mail.send`, `"7"` and
`"0"` the domain ids 7 and 0, `"one"` the single address 10.0.0.1 and `"two"` the
single address 10.0.0.2. -/
def stubLibrary : Library :=
  { GetRequest := fun key endpoint host =>
      ⟨"", host ++ endpoint, [("Authorization", "Bearer " ++ key)], [], ""⟩
    unmarshalSubuser := fun body =>
      if body = "jane" then .ok ⟨"jane", "jane@example.org", true⟩
      else .error "invalid character"
    unmarshalAPIKey := fun body =>
      if body = "ci" then .ok ⟨"ci", "", "id1", ["mail.send"]⟩
      else .error "invalid character"
    unmarshalDomain := fun body =>
      if body = "7" then .ok 7 else if body = "0" then .ok 0
      else .error "invalid character"
    unmarshalIPs := fun body =>
      if body = "one" then .ok ["10.0.0.1"] else if body = "two" then .ok ["10.0.0.2"]
      else .error "invalid character" }

/-- A world whose call is answered with the given status and body. -/
def answer (status : Int) (body : String) : World :=
  constWorld ⟨status, body, []⟩ 0

/-- The probe sequence pending, converged, converged, pending, converged, converged,
converged. -/
def sevenProbes {α : Type} (pending converged : α) : List α :=
  [pending, converged, converged, pending, converged, converged, converged]

/-! ## Subuser update (`resource_subuser.go`) -/

/-- The constant `keyDisabled`. -/
def keyDisabled : String := "disabled"

/-- The constant `keyIPs`. -/
def keyIPs : String := "ips"

/-- The constant `keyDomain`. -/
def keyDomain : String := "domain"

/-- The three reconcilers that `resourceSubuserUpdate` can hand to its
`errgroup.Group`. -/
inductive Reconciler where
  | waitForSubuser
  | waitForDomain
  | waitForIPs
deriving DecidableEq, Repr

/-- What `resourceSubuserUpdate` gets from its callees: `d.HasChange(key)` (the same
answer at both places where it is asked, the function does not change the resource
data in between), the errors of `setDisabled`, of `json.Marshal(ips)`, of the PUT
request for the IPs and of `setDomain` when they are called, the error that each
reconciler returns when it is run and the time at which it returns, and the error of
the final `resourceSubuserRead`. -/
structure UpdateWorld where
  hasChange : String → Bool
  setDisabled : Option ResourceError
  marshalIPs : Option ResourceError
  putIPs : Option ResourceError
  setDomain : Option ResourceError
  wait : Reconciler → Option ResourceError
  finishedAt : Reconciler → Nat
  read : Option ResourceError

/-- A run of `resourceSubuserUpdate`: the reconcilers started with `eg.Go`, in the
order of the calls (`none` when the function returned before it reached its
`errgroup.Group`), and the returned error. -/
structure UpdateRun where
  group : Option (List Reconciler)
  result : Option ResourceError
deriving DecidableEq, Repr

/-- Go `eg.Wait()` of `errgroup.Group`: it waits for all started functions and returns
the first non-nil error that one of them returned, nil when none did. -/
def groupWait (uw : UpdateWorld) (started : List Reconciler) : Option ResourceError :=
  match started.filter (fun r => (uw.wait r).isSome) with
  | [] => none
  | r :: rest =>
    uw.wait (rest.foldl
      (fun first x => if uw.finishedAt x < uw.finishedAt first then x else first) r)

/-- The reconcilers that `resourceSubuserUpdate` starts, in the order of its three
`if d.HasChange(...) { eg.Go(...) }` statements. -/
def startedReconcilers (uw : UpdateWorld) : List Reconciler :=
  (if uw.hasChange keyDisabled then [Reconciler.waitForSubuser] else []) ++
  (if uw.hasChange keyDomain then [Reconciler.waitForDomain] else []) ++
  (if uw.hasChange keyIPs then [Reconciler.waitForIPs] else [])

/-- Go `resourceSubuserUpdate`: the three mutation steps, each only when its
sub-property changed and each returning on an error, then the group of reconcilers and
`eg.Wait()`, then `resourceSubuserRead`. -/
def resourceSubuserUpdate (uw : UpdateWorld) : UpdateRun :=
  match (if uw.hasChange keyDisabled then uw.setDisabled else none) with
  | some e => ⟨none, some (.wrap e "failed to set user.disabled")⟩
  | none =>
    match (if uw.hasChange keyIPs then
        (match uw.marshalIPs with
          | some e => some e
          | none => uw.putIPs)
      else none) with
    | some e => ⟨none, some e⟩
    | none =>
      match (if uw.hasChange keyDomain then uw.setDomain else none) with
      | some e => ⟨none, some (.wrap e "failed to set user.domain")⟩
      | none =>
        match groupWait uw (startedReconcilers uw) with
        | some e => ⟨some (startedReconcilers uw), some e⟩
        | none => ⟨some (startedReconcilers uw), uw.read⟩

/-- An update in which the sub-properties in `changed` have changed, every mutation
step succeeds, and reconciler `r` returns `errs r` at time `times r`. -/
def exampleUpdate (changed : List String) (errs : Reconciler → Option ResourceError)
    (times : Reconciler → Nat) : UpdateWorld :=
  { hasChange := fun key => changed.contains key
    setDisabled := none, marshalIPs := none, putIPs := none, setDomain := none
    wait := errs, finishedAt := times, read := none }

/-! ## Lemmas on the secret generator -/

theorem wrapInt_of_range (x : Int) (h1 : -(2 ^ 63) ≤ x) (h2 : x < 2 ^ 63) : wrapInt x = x := by
  unfold wrapInt
  omega

theorem validChars_length : validChars.length = 76 := by decide

theorem numbers_length : numbers.length = 10 := by decide

theorem letters_length : letters.length = 52 := by decide

/-- The byte-rewriting loop keeps the length of the slice. -/
theorem foldl_set_length (g : Nat → Nat) (m : Nat) (bs : List Nat) :
    ((List.range m).foldl (fun l i => l.set i (g (l.getD i 0))) bs).length = bs.length := by
  induction m with
  | zero => simp
  | succ m ihm =>
    rw [List.range_succ, List.foldl_append]
    simp only [List.foldl_cons, List.foldl_nil, List.length_set]
    exact ihm

/-- The byte-rewriting loop over the first `m` positions, read position by position. -/
theorem foldl_set_getElem? (g : Nat → Nat) (m : Nat) (bs : List Nat) (k : Nat) :
    ((List.range m).foldl (fun l i => l.set i (g (l.getD i 0))) bs)[k]? =
      if k < m then bs[k]?.map g else bs[k]? := by
  induction m generalizing k with
  | zero => simp
  | succ m ih =>
    rw [List.range_succ, List.foldl_append]
    simp only [List.foldl_cons, List.foldl_nil]
    rw [List.getElem?_set]
    have hlen := foldl_set_length g m bs
    by_cases hk : m = k
    · subst hk
      have hm := ih m
      simp only [lt_irrefl, if_false] at hm
      rw [hlen, List.getD_eq_getElem?_getD, hm]
      by_cases hb : m < bs.length
      · simp [hb, List.getElem?_eq_getElem hb]
      · have : bs[m]? = none := by simp; omega
        simp [hb, this]
    · rw [if_neg hk, ih k]
      by_cases h1 : k < m
      · have : k < m + 1 := by omega
        simp [h1, this]
      · have : ¬ k < m + 1 := by omega
        simp [h1, this]

theorem mapValidChars_getElem? (L : Int) (bs : List Nat) (k : Nat) :
    (mapValidChars L bs)[k]? =
      if k < L.toNat then bs[k]?.map (validCharOf) else bs[k]? := by
  unfold mapValidChars
  exact foldl_set_getElem? (validCharOf) L.toNat bs k

theorem mapValidChars_length (L : Int) (bs : List Nat) :
    (mapValidChars L bs).length = bs.length := by
  unfold mapValidChars
  exact foldl_set_length (validCharOf) L.toNat bs

theorem tmod_natCast (x n : Nat) (L : Int) (hLn : L = (n : Int)) :
    Int.tmod (x : Int) L = ((x % n : Nat) : Int) := by
  subst hLn
  rw [Int.tmod_eq_emod (by omega) (by omega)]
  push_cast
  rfl

theorem randomBytes_ok (src : RandSource) (m : Nat) (hsrc : src.readErr = none)
    (halloc : (m : Int) ≤ maxAlloc) (hmem : m ≤ src.memory) :
    randomBytes src (m : Int) = .ok ((List.range m).map (randByte src)) := by
  unfold randomBytes
  have h1 : ¬ ((m : Int) < 0 ∨ maxAlloc < (m : Int)) := by omega
  have h2 : ¬ ((src.memory : Int) < (m : Int)) := by omega
  rw [if_neg h1, if_neg h2, hsrc]
  rfl

theorem randomBytes_no_memory (src : RandSource) (m : Nat) (hmem : src.memory < m) :
    ∃ msg, randomBytes src (m : Int) = .panic msg := by
  unfold randomBytes
  by_cases h1 : (m : Int) < 0 ∨ maxAlloc < (m : Int)
  · exact ⟨_, if_pos h1⟩
  · rw [if_neg h1, if_pos (by omega)]
    exact ⟨_, rfl⟩

theorem genPassword_eq (src : RandSource) (L : Int) (hL : 2 ≤ L)
    (halloc : L + 2 ≤ maxAlloc) (hmem : L + 2 ≤ (src.memory : Int))
    (hsrc : src.readErr = none) :
    genPassword src L = .ok ((List.range L.toNat).map (secretAt src L.toNat)) := by
  obtain ⟨n, hn⟩ : ∃ n : Nat, L.toNat = n := ⟨_, rfl⟩
  have hLn : L = (n : Int) := by omega
  have hn2 : 2 ≤ n := by omega
  have hcast : ((n + 2 : Nat) : Int) = L + 2 := by omega
  have hw : wrapInt (L + 2) = ((n + 2 : Nat) : Int) := by
    rw [wrapInt_of_range]
    · omega
    · omega
    · unfold maxAlloc at halloc; omega
  rw [genPassword, hw, randomBytes_ok src (n + 2) hsrc (by rw [hcast]; exact halloc)
    (by omega)]
  dsimp only
  have hrget : ∀ k, k < n + 2 →
      ((List.range (n + 2)).map (randByte src))[k]? = some (randByte src k) := by
    intro k hk
    rw [List.getElem?_map, List.getElem?_range hk]
    rfl
  generalize hr : (List.range (n + 2)).map (randByte src) = r at hrget ⊢
  have hrlen : r.length = n + 2 := by rw [← hr]; simp
  have hBget : ∀ k, (mapValidChars L r)[k]? =
      if k < n then r[k]?.map (validCharOf) else r[k]? := by
    intro k
    rw [mapValidChars_getElem?, hn]
  have hlen : (mapValidChars L r).length = n + 2 := by
    rw [mapValidChars_length, hrlen]
  generalize hB : mapValidChars L r = B at hBget hlen ⊢
  have t1 : (L + 1).toNat = n + 1 := by omega
  rw [t1, hn]
  have hBn : B.getD n 0 = randByte src n := by
    rw [List.getD_eq_getElem?_getD, hBget, if_neg (lt_irrefl n), hrget n (by omega)]
    rfl
  have hBn1 : B.getD (n + 1) 0 = randByte src (n + 1) := by
    rw [List.getD_eq_getElem?_getD, hBget, if_neg (by omega), hrget (n + 1) (by omega)]
    rfl
  have c1 : ¬ (L < 0 ∨ (B.length : Int) ≤ L) := by
    rw [hlen]; push_cast; omega
  have c2 : ¬ (L = 0) := by omega
  have c3 : ¬ ((B.length : Int) ≤ L + 1) := by
    rw [hlen]; push_cast; omega
  rw [if_neg c1, if_neg c2, if_neg c3, hBn, hBn1, numbers_length, letters_length,
    tmod_natCast _ n L hLn, tmod_natCast _ n L hLn]
  have e1 : ((randByte src (n + 1) % n : Nat) : Int) + 1
      = ((randByte src (n + 1) % n + 1 : Nat) : Int) := by push_cast; rfl
  rw [e1, tmod_natCast _ n L hLn]
  have hidx : (if ((randByte src n % n : Nat) : Int) = ((randByte src (n + 1) % n : Nat) : Int)
        then (((randByte src (n + 1) % n + 1) % n : Nat) : Int)
        else ((randByte src (n + 1) % n : Nat) : Int)).toNat = letterIndex src n := by
    unfold letterIndex digitIndex
    by_cases hc : randByte src n % n = randByte src (n + 1) % n
    · rw [if_pos hc, if_pos (by rw [hc]), Int.toNat_ofNat]
    · rw [if_neg hc, if_neg (by intro h; exact hc (Int.ofNat.inj h)), Int.toNat_ofNat]
  rw [hidx, Int.toNat_ofNat]
  have hdi : randByte src n % n = digitIndex src n := rfl
  rw [hdi]
  have hdlt : digitIndex src n < n := Nat.mod_lt _ (by omega)
  have hllt : letterIndex src n < n := by
    unfold letterIndex
    split
    · exact Nat.mod_lt _ (by omega)
    · exact Nat.mod_lt _ (by omega)
  have hB1 : (B.set (digitIndex src n) (numbers.getD (randByte src n % 10) 0)).getD (n + 1) 0
      = randByte src (n + 1) := by
    rw [List.getD_eq_getElem?_getD, List.getElem?_set_ne (by omega),
      ← List.getD_eq_getElem?_getD, hBn1]
  rw [hB1]
  congr 1
  apply List.ext_getElem?
  intro k
  rw [List.getElem?_take, List.getElem?_map]
  by_cases hk : k < n
  · rw [if_pos hk, List.getElem?_range hk, List.getElem?_set, List.getElem?_set,
      List.length_set, hlen, hBget, if_pos hk, hrget k (by omega), Option.map_some',
      Option.map_some']
    have hd2 : digitIndex src n < n + 2 := by omega
    have hl2 : letterIndex src n < n + 2 := by omega
    unfold secretAt
    by_cases h1 : letterIndex src n = k
    · rw [if_pos h1, if_pos hl2, if_pos h1.symm]
    · have h1s : ¬ k = letterIndex src n := fun h => h1 h.symm
      rw [if_neg h1, if_neg h1s]
      by_cases h2 : digitIndex src n = k
      · rw [if_pos h2, if_pos hd2, if_pos h2.symm]
      · have h2s : ¬ k = digitIndex src n := fun h => h2 h.symm
        rw [if_neg h2, if_neg h2s]
  · rw [if_neg hk]
    have : (List.range n)[k]? = none := by
      rw [List.getElem?_eq_none_iff, List.length_range]; omega
    rw [this]
    rfl

theorem letterIndex_ne_digitIndex (src : RandSource) (n : Nat) (hn : 2 ≤ n) :
    letterIndex src n ≠ digitIndex src n := by
  unfold letterIndex
  have hj : randByte src (n + 1) % n < n := Nat.mod_lt _ (by omega)
  by_cases hc : digitIndex src n = randByte src (n + 1) % n
  · rw [if_pos hc, hc]
    by_cases hlt : randByte src (n + 1) % n + 1 < n
    · rw [Nat.mod_eq_of_lt hlt]; omega
    · have he : randByte src (n + 1) % n + 1 = n := by omega
      rw [he, Nat.mod_self]; omega
  · rw [if_neg hc]
    exact fun h => hc h.symm

theorem digitIndex_lt (src : RandSource) (n : Nat) (hn : 2 ≤ n) : digitIndex src n < n :=
  Nat.mod_lt _ (by omega)

theorem letterIndex_lt (src : RandSource) (n : Nat) (hn : 2 ≤ n) : letterIndex src n < n := by
  unfold letterIndex
  split
  · exact Nat.mod_lt _ (by omega)
  · exact Nat.mod_lt _ (by omega)

theorem numbers_isDigit : ∀ i, i < 10 → isDigit (numbers.getD i 0) := by decide

set_option maxRecDepth 4000 in
theorem letters_isLetter : ∀ i, i < 52 → isLetter (letters.getD i 0) := by decide

theorem numbers_mem_validChars : ∀ i, i < 10 → numbers.getD i 0 ∈ validChars := by decide

set_option maxRecDepth 8000 in
theorem letters_mem_validChars : ∀ i, i < 52 → letters.getD i 0 ∈ validChars := by decide

set_option maxRecDepth 8000 in
theorem validChars_getD_mem : ∀ i, i < 76 → validChars.getD i 0 ∈ validChars := by decide

theorem validCharOf_mem (b : Nat) : validCharOf b ∈ validChars := by
  unfold validCharOf
  rw [validChars_length]
  exact validChars_getD_mem _ (Nat.mod_lt _ (by omega))

theorem secretAt_mem_validChars (src : RandSource) (n k : Nat) :
    secretAt src n k ∈ validChars := by
  unfold secretAt
  split
  · exact letters_mem_validChars _ (Nat.mod_lt _ (by omega))
  · split
    · exact numbers_mem_validChars _ (Nat.mod_lt _ (by omega))
    · exact validCharOf_mem _

/-! ## Properties of the secret generator -/

/-- C1: for every length `L ≥ 2` and every sequence of `L + 2` random bytes, that is
whenever the slice of `L + 2` bytes can be made (`L + 2` is at most `maxAlloc` and at
most the memory that the runtime can provide) and `rand.Read` delivers the bytes,
`genPassword` returns a secret that contains at least one ASCII digit and at least one
ASCII letter. -/
theorem genPassword_has_digit_and_letter (src : RandSource) (L : Int) (hL : 2 ≤ L)
    (halloc : L + 2 ≤ maxAlloc) (hmem : L + 2 ≤ (src.memory : Int))
    (hsrc : src.readErr = none) :
    ∃ out, genPassword src L = .ok out ∧ (∃ c ∈ out, isDigit c) ∧ (∃ c ∈ out, isLetter c) := by
  have hn : 2 ≤ L.toNat := by omega
  refine ⟨_, genPassword_eq src L hL halloc hmem hsrc, ?_, ?_⟩
  · refine ⟨secretAt src L.toNat (digitIndex src L.toNat), ?_, ?_⟩
    · exact List.mem_map.mpr ⟨_, List.mem_range.mpr (digitIndex_lt src _ hn), rfl⟩
    · unfold secretAt
      rw [if_neg (fun h => letterIndex_ne_digitIndex src _ hn h.symm), if_pos rfl]
      exact numbers_isDigit _ (Nat.mod_lt _ (by omega))
  · refine ⟨secretAt src L.toNat (letterIndex src L.toNat), ?_, ?_⟩
    · exact List.mem_map.mpr ⟨_, List.mem_range.mpr (letterIndex_lt src _ hn), rfl⟩
    · unfold secretAt
      rw [if_pos rfl]
      exact letters_isLetter _ (Nat.mod_lt _ (by omega))

/-- Witness of `genPassword_has_digit_and_letter`: length 4 with the random bytes
`0, 0, 0, 200, 7, 9`. -/
theorem genPassword_has_digit_and_letter_witness :
    (2 : Int) ≤ 4 ∧ (4 : Int) + 2 ≤ maxAlloc ∧
      ∃ out, genPassword ⟨none, fun k => [0, 0, 0, 200, 7, 9].getD k 0, 64⟩ 4 = .ok out ∧
        (∃ c ∈ out, isDigit c) ∧ (∃ c ∈ out, isLetter c) :=
  ⟨by decide, by decide,
    genPassword_has_digit_and_letter ⟨none, fun k => [0, 0, 0, 200, 7, 9].getD k 0, 64⟩ 4
      (by decide) (by decide) (by decide) rfl⟩

/-- C2: for every length `L ≥ 2` and every sequence of `L + 2` random bytes, that is
whenever the slice of `L + 2` bytes can be made (`L + 2` is at most `maxAlloc` and at
most the memory that the runtime can provide) and `rand.Read` delivers the bytes,
`genPassword` returns, with a nil error, exactly `L` bytes, each of them a character of
the alphabet `validChars`, which consists of the 76 distinct characters `0-9`, `A-Z`,
`a-z` and `!@#$%^&*()-_=+`. -/
theorem genPassword_length_and_alphabet (src : RandSource) (L : Int) (hL : 2 ≤ L)
    (halloc : L + 2 ≤ maxAlloc) (hmem : L + 2 ≤ (src.memory : Int))
    (hsrc : src.readErr = none) :
    (∃ out, genPassword src L = .ok out ∧ (out.length : Int) = L ∧
      ∀ c ∈ out, c ∈ validChars) ∧
    validChars = ("0123456789ABCDEFGHIJKLMNOPQRSTUVWXYZabcdefghijklmnopqrstuvwxyz" ++
      "!@#$%^&*()-_=+").toList.map Char.toNat ∧
    validChars.length = 76 ∧ validChars.Nodup := by
  refine ⟨⟨_, genPassword_eq src L hL halloc hmem hsrc, ?_, ?_⟩, by decide, by decide,
    by decide⟩
  · rw [List.length_map, List.length_range]
    omega
  · intro c hc
    obtain ⟨k, _, rfl⟩ := List.mem_map.mp hc
    exact secretAt_mem_validChars src _ k

/-- Witness of `genPassword_length_and_alphabet`: length 4 with the random bytes
`0, 0, 0, 200, 7, 9`. -/
theorem genPassword_length_and_alphabet_witness :
    (2 : Int) ≤ 4 ∧ (4 : Int) + 2 ≤ maxAlloc ∧
      ∃ out, genPassword ⟨none, fun k => [0, 0, 0, 200, 7, 9].getD k 0, 64⟩ 4 = .ok out ∧
        (out.length : Int) = 4 ∧ ∀ c ∈ out, c ∈ validChars :=
  ⟨by decide, by decide,
    (genPassword_length_and_alphabet ⟨none, fun k => [0, 0, 0, 200, 7, 9].getD k 0, 64⟩ 4
      (by decide) (by decide) (by decide) rfl).1⟩

theorem genPassword_one (src : RandSource) (hsrc : src.readErr = none)
    (hmem : 3 ≤ src.memory) :
    genPassword src 1 = .ok [letters.getD (randByte src 2 % 52) 0] := by
  have hw : wrapInt ((1 : Int) + 2) = ((3 : Nat) : Int) := by decide
  rw [genPassword, hw, randomBytes_ok src 3 hsrc (by decide) hmem]
  simp [mapValidChars, List.range_succ, Int.tmod, letters_length]

theorem genPassword_panic_of_randomBytes (src : RandSource) (L : Int) (msg : String)
    (h : randomBytes src (wrapInt (L + 2)) = .panic msg) :
    genPassword src L = .panic msg := by
  rw [genPassword, h]

theorem genPassword_nonpositive (src : RandSource) (L : Int) (hL : L ≤ 0)
    (hmin : -(2 ^ 63) ≤ L) (hsrc : src.readErr = none) :
    ∃ m, genPassword src L = .panic m := by
  by_cases h3 : L + 2 < 0
  · have hw : wrapInt (L + 2) = L + 2 := wrapInt_of_range _ (by omega) (by omega)
    refine ⟨"makeslice: len out of range", ?_⟩
    rw [genPassword, hw, randomBytes, if_pos (Or.inl h3)]
  · obtain ⟨m, hm⟩ : ∃ m : Nat, L + 2 = (m : Int) := ⟨(L + 2).toNat, by omega⟩
    have hw : wrapInt (L + 2) = (m : Int) := by
      rw [wrapInt_of_range _ (by omega) (by omega), hm]
    by_cases hmem : m ≤ src.memory
    · have halloc : (m : Int) ≤ maxAlloc := by unfold maxAlloc; omega
      by_cases h0 : L = 0
      · subst h0
        have hm2 : m = 2 := by omega
        subst hm2
        refine ⟨"integer divide by zero", ?_⟩
        rw [genPassword, hw, randomBytes_ok src 2 hsrc halloc hmem]
        simp [mapValidChars, List.range_succ]
      · refine ⟨"index out of range", ?_⟩
        rw [genPassword, hw, randomBytes_ok src m hsrc halloc hmem]
        have hneg : L < 0 := by omega
        simp [hneg]
    · obtain ⟨msg, hp⟩ := randomBytes_no_memory src m (by omega)
      exact ⟨msg, genPassword_panic_of_randomBytes src L msg (by rw [hw]; exact hp)⟩

/-- Every length below 2 that is a Go `int`: with a working random source the call
never returns an error; it panics for `L ≤ 0`, and for `L = 1` it returns a single
letter (or dies when the runtime cannot provide three bytes). -/
theorem genPassword_below_two_no_error (src : RandSource) (L : Int) (hL : L < 2)
    (hmin : -(2 ^ 63) ≤ L) (hsrc : src.readErr = none) (e : String) :
    genPassword src L ≠ .err e := by
  by_cases h1 : L = 1
  · subst h1
    by_cases hmem : 3 ≤ src.memory
    · rw [genPassword_one src hsrc hmem]
      exact fun h => GoResult.noConfusion h
    · obtain ⟨msg, hp⟩ := randomBytes_no_memory src 3 (by omega)
      have hw : wrapInt ((1 : Int) + 2) = ((3 : Nat) : Int) := by decide
      rw [genPassword_panic_of_randomBytes src 1 msg (by rw [hw]; exact hp)]
      exact fun h => GoResult.noConfusion h
  · obtain ⟨m, hm⟩ := genPassword_nonpositive src L (by omega) hmin hsrc
    rw [hm]
    exact fun h => GoResult.noConfusion h

/-- C3 (the code does not reject short lengths): with the random bytes all zero,
`genPassword(1)` returns the one-byte secret `"A"` with a nil error, a secret without
a digit, and `genPassword(0)` and `genPassword(-1)` panic instead of returning an
error. -/
theorem genPassword_short_length_not_rejected :
    genPassword ⟨none, fun _ => 0, 64⟩ 1 = .ok [65] ∧
    (¬ ∃ c ∈ [65], isDigit c) ∧
    genPassword ⟨none, fun _ => 0, 64⟩ 0 = .panic "integer divide by zero" ∧
    genPassword ⟨none, fun _ => 0, 64⟩ (-1) = .panic "index out of range" := by
  decide

/-- C4 (refuted as stated): the characters `'0'` (byte 48) and `'+'` (byte 43) are
both in the alphabet, but `'0'` has four byte preimages under
`b ↦ validChars[b % 76]` and `'+'` has three. -/
theorem validCharOf_not_uniform :
    48 ∈ validChars ∧ 43 ∈ validChars ∧ preimageCount 48 = 4 ∧ preimageCount 43 = 3 ∧
      preimageCount 48 ≠ preimageCount 43 := by
  decide

set_option maxRecDepth 100000 in
/-- C4 (amended): under `b ↦ validChars[b % 76]` on the bytes `0..255`, the first 28
characters of the alphabet (`0-9`, `A-R`) have four preimages each and the other 48
(`S-Z`, `a-z` and the punctuation) have three each. -/
theorem validCharOf_preimage_counts :
    validChars.map preimageCount = List.replicate 28 4 ++ List.replicate 48 3 := by
  decide

/-! ## Lemmas on the request executor -/

theorem attempt_accepted (w : World) (req : Request) (o : requestOpts) (k : Nat) (st : Exec)
    (res : Response) (h : w.api req k = .response res)
    (hacc : sliceContainsInt o.desiredStatus res.StatusCode = true) :
    attempt w req o k st = .ret (st.trace ++ attemptEvents o req st.wait) res := by
  simp [attempt, h, hacc]

theorem attempt_not_accepted (w : World) (req : Request) (o : requestOpts) (k : Nat)
    (st : Exec) (h : accepted o (w.api req k) = false) :
    attempt w req o k st =
      .next ⟨(w.api req k).res, (w.api req k).err, nextWait w req o k,
        st.trace ++ attemptEvents o req st.wait⟩ := by
  unfold attempt nextWait
  cases hapi : w.api req k with
  | failure r msg => simp [APIResult.res, APIResult.err, throttleReset]
  | response res =>
    rw [hapi] at h
    simp only [accepted] at h
    simp only [h, APIResult.res, APIResult.err, throttleReset]
    by_cases h429 : res.StatusCode = statusTooManyRequests
    · simp only [h429, if_true, and_self, Bool.false_eq_true, if_false]
      match hh : res.header "X-Ratelimit-Reset" with
      | [] => simp
      | [v] =>
        simp only [List.length_singleton, if_true, List.getD_cons_zero]
        cases parseInt v 64 <;> rfl
      | _ :: _ :: _ => simp
    · simp [h429]

theorem callCount_append (a b : List Event) : callCount (a ++ b) = callCount a + callCount b := by
  induction a with
  | nil => simp [callCount]
  | cons e rest ih =>
    cases e with
    | sleep d => simp [callCount, ih]
    | acquire ch => simp [callCount, ih]
    | call r => simp [callCount, ih]; omega

theorem sleeps_append (a b : List Event) : sleeps (a ++ b) = sleeps a ++ sleeps b := by
  induction a with
  | nil => simp [sleeps]
  | cons e rest ih => cases e <;> simp [sleeps, ih]

theorem acquireCount_append (a b : List Event) :
    acquireCount (a ++ b) = acquireCount a + acquireCount b := by
  induction a with
  | nil => simp [acquireCount]
  | cons e rest ih =>
    cases e with
    | sleep d => simp [acquireCount, ih]
    | acquire ch => simp [acquireCount, ih]; omega
    | call r => simp [acquireCount, ih]

theorem callCount_attemptEvents (o : requestOpts) (req : Request) (wait : Int) :
    callCount (attemptEvents o req wait) = 1 := by
  unfold attemptEvents
  cases o.rateLimitChannel <;> rfl

theorem sleeps_attemptEvents (o : requestOpts) (req : Request) (wait : Int) :
    sleeps (attemptEvents o req wait) = [wait] := by
  unfold attemptEvents
  cases o.rateLimitChannel <;> rfl

theorem acquireCount_attemptEvents (o : requestOpts) (req : Request) (wait : Int) :
    acquireCount (attemptEvents o req wait) = if o.rateLimitChannel.isSome then 1 else 0 := by
  unfold attemptEvents
  cases o.rateLimitChannel <;> rfl

theorem attemptsMade_le (w : World) (req : Request) (o : requestOpts) (m k : Nat) :
    attemptsMade w req o m k ≤ m := by
  induction m generalizing k with
  | zero => simp [attemptsMade]
  | succ m ih =>
    unfold attemptsMade
    split
    · omega
    · have := ih (k + 1); omega

theorem attemptsMade_eq (w : World) (req : Request) (o : requestOpts) (m k : Nat)
    (h : ∀ j, j < m → accepted o (w.api req (k + j)) = false) :
    attemptsMade w req o m k = m := by
  induction m generalizing k with
  | zero => simp [attemptsMade]
  | succ m ih =>
    unfold attemptsMade
    have h0 := h 0 (by omega)
    rw [Nat.add_zero] at h0
    rw [h0]
    have := ih (k + 1) (fun j hj => by
      have := h (j + 1) (by omega)
      rwa [show k + (j + 1) = k + 1 + j by omega] at this)
    simp [this]

/-- The calls of a run of the loop: one per attempt made. -/
theorem attempts_callCount (w : World) (req : Request) (o : requestOpts) (m k : Nat)
    (st : Exec) :
    callCount (attempts w req o m k st).trace = callCount st.trace + attemptsMade w req o m k := by
  induction m generalizing k st with
  | zero => simp [attempts, attemptsMade, finish]
  | succ m ih =>
    unfold attempts attemptsMade
    cases hacc : accepted o (w.api req k) with
    | true =>
      cases hapi : w.api req k with
      | failure r msg => rw [hapi] at hacc; simp [accepted] at hacc
      | response res =>
        rw [hapi] at hacc
        rw [attempt_accepted w req o k st res hapi hacc]
        simp [callCount_append, callCount_attemptEvents]
    | false =>
      rw [attempt_not_accepted w req o k st hacc]
      simp only [ih, callCount_append, callCount_attemptEvents]
      simp
      omega

/-- The receives from the rate-limit channel in a run of the loop: one per attempt
made when a channel is configured, none otherwise. -/
theorem attempts_acquireCount (w : World) (req : Request) (o : requestOpts) (m k : Nat)
    (st : Exec) :
    acquireCount (attempts w req o m k st).trace =
      acquireCount st.trace +
        (if o.rateLimitChannel.isSome then attemptsMade w req o m k else 0) := by
  induction m generalizing k st with
  | zero => simp [attempts, attemptsMade, finish]
  | succ m ih =>
    unfold attempts attemptsMade
    cases hacc : accepted o (w.api req k) with
    | true =>
      cases hapi : w.api req k with
      | failure r msg => rw [hapi] at hacc; simp [accepted] at hacc
      | response res =>
        rw [hapi] at hacc
        rw [attempt_accepted w req o k st res hapi hacc]
        simp [acquireCount_append, acquireCount_attemptEvents]
    | false =>
      rw [attempt_not_accepted w req o k st hacc]
      simp only [ih, acquireCount_append, acquireCount_attemptEvents]
      cases o.rateLimitChannel <;> simp
      omega

/-- The sleeps of a run of the loop: the first attempt sleeps the current `wait`, each
later attempt sleeps the `wait` left by the attempt before it. -/
theorem attempts_sleeps (w : World) (req : Request) (o : requestOpts) (m k : Nat)
    (st : Exec) :
    sleeps (attempts w req o m k st).trace =
      sleeps st.trace ++ (List.range (attemptsMade w req o m k)).map
        (fun j => if j = 0 then st.wait else nextWait w req o (k + j - 1)) := by
  induction m generalizing k st with
  | zero => simp [attempts, attemptsMade, finish]
  | succ m ih =>
    unfold attempts attemptsMade
    cases hacc : accepted o (w.api req k) with
    | true =>
      cases hapi : w.api req k with
      | failure r msg => rw [hapi] at hacc; simp [accepted] at hacc
      | response res =>
        rw [hapi] at hacc
        rw [attempt_accepted w req o k st res hapi hacc]
        simp [sleeps_append, sleeps_attemptEvents, List.range_succ]
    | false =>
      rw [attempt_not_accepted w req o k st hacc]
      simp only [ih, sleeps_append, sleeps_attemptEvents]
      rw [if_neg (by simp), List.range_succ_eq_map, List.map_cons, List.map_map,
        List.append_assoc]
      congr 1
      simp only [List.singleton_append, if_true, List.cons.injEq, true_and]
      apply List.map_congr_left
      intro j _
      simp only [Function.comp]
      by_cases hj : j = 0
      · subst hj; simp
      · have e : k + 1 + j - 1 = k + (j + 1) - 1 := by omega
        simp [hj, e]

theorem attemptsMade_pos (w : World) (req : Request) (o : requestOpts) (m k : Nat) :
    1 ≤ attemptsMade w req o (m + 1) k := by
  unfold attemptsMade
  split <;> omega

/-- When no attempt is accepted the loop runs out, and the function ends with the
`res` and `err` of the last call. -/
theorem attempts_outcome_exhausted (w : World) (req : Request) (o : requestOpts) (m k : Nat)
    (st : Exec) (h : ∀ j, j < m + 1 → accepted o (w.api req (k + j)) = false) :
    (attempts w req o (m + 1) k st).outcome =
      finishOutcome o (w.api req (k + m)).res (w.api req (k + m)).err := by
  induction m generalizing k st with
  | zero =>
    have h0 := h 0 (by omega)
    rw [Nat.add_zero] at h0
    unfold attempts
    rw [attempt_not_accepted w req o k st h0]
    simp [attempts, finish]
  | succ m ih =>
    have h0 := h 0 (by omega)
    rw [Nat.add_zero] at h0
    unfold attempts
    rw [attempt_not_accepted w req o k st h0]
    simp only
    rw [ih (k + 1) _ (fun j hj => by
      have := h (j + 1) (by omega)
      rwa [show k + (j + 1) = k + 1 + j by omega] at this)]
    rw [show k + 1 + m = k + (m + 1) by omega]

/-- Every error that the loop and the code after it can return is either the error of
a `sendgrid.API` call or the "unexpected status code" error, the latter only with a
non-empty `desiredStatus`. -/
theorem attempts_error_kind (w : World) (req : Request) (o : requestOpts) (m k : Nat)
    (st : Exec) (hst : ∀ e, st.err = some e → ∃ msg, e = .transport msg)
    (r : Option Response) (e : GoError)
    (hout : (attempts w req o m k st).outcome = .returned r (some e)) :
    (∃ msg, e = .transport msg) ∨
      (o.desiredStatus ≠ [] ∧ ∃ r1 : Response, e = .errorf
        ("response contained unexpected status code: " ++ toString r1.StatusCode)) := by
  induction m generalizing k st with
  | zero =>
    simp only [attempts, finish, finishOutcome] at hout
    cases herr : st.err with
    | some e1 =>
      rw [herr] at hout
      simp only [Outcome.returned.injEq, Option.some.injEq] at hout
      exact Or.inl (hout.2 ▸ hst e1 herr)
    | none =>
      rw [herr] at hout
      by_cases hlen : o.desiredStatus.length > 0
      · simp only [hlen, if_true] at hout
        cases hres : st.res with
        | none => rw [hres] at hout; simp at hout
        | some r1 =>
          rw [hres] at hout
          by_cases hc : sliceContainsInt o.desiredStatus r1.StatusCode = true
          · simp [hc] at hout
          · simp only [hc, Bool.not_false, if_true, Outcome.returned.injEq,
              Option.some.injEq] at hout
            refine Or.inr ⟨?_, r1, hout.2.symm⟩
            intro hnil
            rw [hnil] at hlen
            simp at hlen
      · simp [hlen] at hout
  | succ m ih =>
    unfold attempts at hout
    cases hacc : accepted o (w.api req k) with
    | true =>
      cases hapi : w.api req k with
      | failure r1 msg => rw [hapi] at hacc; simp [accepted] at hacc
      | response res =>
        rw [hapi] at hacc
        rw [attempt_accepted w req o k st res hapi hacc] at hout
        simp at hout
    | false =>
      rw [attempt_not_accepted w req o k st hacc] at hout
      refine ih (k + 1) _ ?_ hout
      intro e1 he1
      cases hapi : w.api req k with
      | failure r1 msg =>
        rw [hapi] at he1
        simp only [APIResult.err, Option.some.injEq] at he1
        exact ⟨msg, he1.symm⟩
      | response res =>
        rw [hapi] at he1
        simp [APIResult.err] at he1

theorem doRequest_eq (w : World) (req : Request) (opts : List requestOption) :
    doRequest w req opts =
      attempts w req (applyOpts opts) ((applyOpts opts).numRetries + 1).toNat 0
        ⟨none, none, 0, []⟩ := rfl

/-! ## Properties of the request executor -/

/-- C5: for every operation and every option list that lets a first attempt happen
(`numRetries ≥ 0`), if the first call of `sendgrid.API` returns a response with a nil
error whose status is in the acceptable set, `doRequest` makes exactly one call,
returns that response with a nil error, sleeps only the zero duration, and receives
from the rate-limit channel at most once. -/
theorem doRequest_first_attempt_accepted (w : World) (req : Request)
    (opts : List requestOption) (res : Response)
    (hn : 0 ≤ (applyOpts opts).numRetries)
    (h0 : w.api req 0 = .response res)
    (hacc : sliceContainsInt (applyOpts opts).desiredStatus res.StatusCode = true) :
    (doRequest w req opts).outcome = .returned (some res) none ∧
    callCount (doRequest w req opts).trace = 1 ∧
    sleeps (doRequest w req opts).trace = [0] ∧
    acquireCount (doRequest w req opts).trace ≤ 1 := by
  obtain ⟨m, hm⟩ : ∃ m : Nat, ((applyOpts opts).numRetries + 1).toNat = m + 1 :=
    ⟨(applyOpts opts).numRetries.toNat, by omega⟩
  rw [doRequest_eq, hm]
  unfold attempts
  rw [attempt_accepted w req _ 0 _ res h0 hacc]
  simp only [List.nil_append]
  refine ⟨trivial, callCount_attemptEvents _ _ _, sleeps_attemptEvents _ _ _, ?_⟩
  rw [acquireCount_attemptEvents]
  split <;> omega

/-- Witness of `doRequest_first_attempt_accepted`: the delete options
`withStatus(204), withRateLimit(ch), withRetry(5)` and a first answer 204. -/
theorem doRequest_first_attempt_accepted_witness :
    (doRequest (constWorld ⟨204, "", []⟩ 0) exampleRequest
        [withStatus 204, withRateLimit (some 1), withRetry 5]).outcome
      = .returned (some ⟨204, "", []⟩) none ∧
    callCount (doRequest (constWorld ⟨204, "", []⟩ 0) exampleRequest
        [withStatus 204, withRateLimit (some 1), withRetry 5]).trace = 1 ∧
    sleeps (doRequest (constWorld ⟨204, "", []⟩ 0) exampleRequest
        [withStatus 204, withRateLimit (some 1), withRetry 5]).trace = [0] ∧
    acquireCount (doRequest (constWorld ⟨204, "", []⟩ 0) exampleRequest
        [withStatus 204, withRateLimit (some 1), withRetry 5]).trace ≤ 1 :=
  doRequest_first_attempt_accepted (constWorld ⟨204, "", []⟩ 0) exampleRequest
    [withStatus 204, withRateLimit (some 1), withRetry 5] ⟨204, "", []⟩
    (by decide) rfl (by decide)

/-- C6: for every retry count `n ≥ 0` and every sequence of outcomes of the calls,
`doRequest` makes at most `n + 1` calls of `sendgrid.API`, and exactly `n + 1` when
none of the attempts `0..n` returns a response whose status is in the acceptable set
(whether or not some attempt is throttled). -/
theorem doRequest_call_count (w : World) (req : Request) (opts : List requestOption)
    (n : Int) (hn : (applyOpts opts).numRetries = n) (h0 : 0 ≤ n) :
    (callCount (doRequest w req opts).trace : Int) ≤ n + 1 ∧
    ((∀ k : Nat, (k : Int) ≤ n → accepted (applyOpts opts) (w.api req k) = false) →
      (callCount (doRequest w req opts).trace : Int) = n + 1) := by
  rw [doRequest_eq, attempts_callCount, hn]
  simp only [callCount, Nat.zero_add]
  constructor
  · have := attemptsMade_le w req (applyOpts opts) (n + 1).toNat 0
    omega
  · intro h
    rw [attemptsMade_eq w req (applyOpts opts) (n + 1).toNat 0 (fun j hj => by
      rw [Nat.zero_add]
      exact h j (by omega))]
    omega

/-- Witness of `doRequest_call_count`: five retries against a server that always
answers 500 give six calls. -/
theorem doRequest_call_count_witness :
    (callCount (doRequest (constWorld ⟨500, "", []⟩ 0) exampleRequest
        [withStatus 204, withRetry 5]).trace : Int) ≤ 5 + 1 ∧
    ((∀ k : Nat, (k : Int) ≤ 5 →
        accepted (applyOpts [withStatus 204, withRetry 5])
          ((constWorld ⟨500, "", []⟩ 0).api exampleRequest k) = false) →
      (callCount (doRequest (constWorld ⟨500, "", []⟩ 0) exampleRequest
        [withStatus 204, withRetry 5]).trace : Int) = 5 + 1) :=
  doRequest_call_count (constWorld ⟨500, "", []⟩ 0) exampleRequest
    [withStatus 204, withRetry 5] 5 rfl (by decide)

/-- No run of `doRequest` returns a `ratelimitError`: a returned error is the error of
the last `sendgrid.API` call or the "unexpected status code" error. -/
theorem doRequest_never_ratelimitError (w : World) (req : Request)
    (opts : List requestOption) (r : Option Response) (e : GoError)
    (hout : (doRequest w req opts).outcome = .returned r (some e)) :
    e.isRatelimit = false := by
  rw [doRequest_eq] at hout
  rcases attempts_error_kind w req _ _ 0 _ (by intro e1 he1; simp at he1) r e hout with
    ⟨msg, rfl⟩ | ⟨_, r1, rfl⟩ <;> rfl

/-- C7 (the code loses the throttle signal): the only attempt is answered 429, not
acceptable, with the single header value `X-Ratelimit-Reset: 1700000010` while the
clock reads 1700000000 s.  The claim asks for the error `ratelimitError` with timeout
11 s; `doRequest` returns the "unexpected status code: 429" error when statuses are
configured, and a nil error when none is. -/
theorem doRequest_throttle_signal_lost :
    (doRequest (constWorld (throttled "1700000010") (1700000000 * second)) exampleRequest
        [withStatus 200]).outcome
      = .returned (some (throttled "1700000010"))
          (some (.errorf "response contained unexpected status code: 429")) ∧
    (doRequest (constWorld (throttled "1700000010") (1700000000 * second)) exampleRequest
        []).outcome
      = .returned (some (throttled "1700000010")) none ∧
    throttleReset (applyOpts [withStatus 200])
        ((constWorld (throttled "1700000010") (1700000000 * second)).api exampleRequest 0)
      = some 1700000010 ∧
    untilReset (1700000000 * second) 1700000010 = 11 * second := by
  decide

/-- C9: for every retry count `n ≥ 0`, if none of the attempts `0..n` is accepted and
the last attempt received a response (nil error), then with a non-empty acceptable set
`doRequest` returns that response together with the error
"response contained unexpected status code: <status of the last response>"; and with
an empty acceptable set no run of `doRequest` returns such an error: any error it
returns is the error of a `sendgrid.API` call. -/
theorem doRequest_unexpected_status (w : World) (req : Request)
    (opts : List requestOption) :
    (∀ (n : Nat) (res : Response), (applyOpts opts).numRetries = (n : Int) →
      (applyOpts opts).desiredStatus ≠ [] →
      (∀ k, k ≤ n → accepted (applyOpts opts) (w.api req k) = false) →
      w.api req n = .response res →
      (doRequest w req opts).outcome = .returned (some res) (some (.errorf
        ("response contained unexpected status code: " ++ toString res.StatusCode)))) ∧
    ((applyOpts opts).desiredStatus = [] → ∀ (r : Option Response) (e : GoError),
      (doRequest w req opts).outcome = .returned r (some e) → ∃ msg, e = .transport msg) := by
  constructor
  · intro n res hn hne hnone hlast
    have hm : ((applyOpts opts).numRetries + 1).toNat = n + 1 := by omega
    rw [doRequest_eq, hm, attempts_outcome_exhausted w req _ n 0 _ (fun j hj => by
      rw [Nat.zero_add]; exact hnone j (by omega))]
    rw [Nat.zero_add, hlast]
    have hacc := hnone n (Nat.le_refl n)
    rw [hlast] at hacc
    simp only [accepted] at hacc
    have hlen : (applyOpts opts).desiredStatus.length > 0 :=
      List.length_pos.mpr hne
    simp [finishOutcome, APIResult.res, APIResult.err, hlen, hacc]
  · intro hempty r e hout
    rw [doRequest_eq] at hout
    rcases attempts_error_kind w req _ _ 0 _ (by intro e1 he1; simp at he1) r e hout with
      h | ⟨hne, _⟩
    · exact h
    · exact absurd hempty hne

/-- Witness of `doRequest_unexpected_status`: one retry against a server that always
answers 500 while only 204 is acceptable. -/
theorem doRequest_unexpected_status_witness :
    (doRequest (constWorld ⟨500, "", []⟩ 0) exampleRequest
        [withStatus 204, withRetry 1]).outcome
      = .returned (some ⟨500, "", []⟩)
          (some (.errorf "response contained unexpected status code: 500")) :=
  (doRequest_unexpected_status (constWorld ⟨500, "", []⟩ 0) exampleRequest
    [withStatus 204, withRetry 1]).1 1 ⟨500, "", []⟩ rfl (by decide)
    (fun _ _ => rfl) rfl

theorem parseInt_range (s : String) (v : Int) (h : parseInt s 64 = some v) :
    -(2 ^ 63) ≤ v ∧ v < 2 ^ 63 := by
  unfold parseInt at h
  simp only at h
  split at h
  · exact absurd h (by simp)
  · split at h
    · exact absurd h (by simp)
    · rename_i n _
      split at h
      · split at h
        · simp only [Option.some.injEq] at h
          have : (n : Int) ≤ 2 ^ 63 := by exact_mod_cast (by assumption : n ≤ 2 ^ (64 - 1))
          omega
        · exact absurd h (by simp)
      · split at h
        · simp only [Option.some.injEq] at h
          have : (n : Int) < 2 ^ 63 := by exact_mod_cast (by assumption : n < 2 ^ (64 - 1))
          omega
        · exact absurd h (by simp)

theorem throttleReset_range (o : requestOpts) (a : APIResult) (epoch : Int)
    (h : throttleReset o a = some epoch) : -(2 ^ 63) ≤ epoch ∧ epoch < 2 ^ 63 := by
  unfold throttleReset at h
  split at h
  · exact absurd h (by simp)
  · split at h
    · split at h
      · exact parseInt_range _ _ h
      · exact absurd h (by simp)
    · exact absurd h (by simp)

theorem untilReset_exact (now epoch : Int) (h0 : -(2 ^ 63) ≤ epoch)
    (h1 : epoch + 1 + unixToInternal < 2 ^ 63)
    (h2 : minDuration ≤ (epoch + 1) * second - now)
    (h3 : (epoch + 1) * second - now ≤ maxDuration) :
    untilReset now epoch = (epoch + 1) * second - now := by
  unfold untilReset wrapInt clampDuration
  unfold unixToInternal at *
  unfold minDuration at *
  unfold maxDuration at *
  unfold second at *
  simp only
  have e1 : (epoch + 62135596800 + 2 ^ 63) % 2 ^ 64 - 2 ^ 63 = epoch + 62135596800 := by omega
  rw [e1]
  have e2 : (epoch + 62135596800 + 1 + 2 ^ 63) % 2 ^ 64 - 2 ^ 63 = epoch + 62135596800 + 1 := by
    omega
  rw [e2]
  have e3 : (epoch + 62135596800 + 1 - 62135596800) = epoch + 1 := by omega
  rw [e3]
  rw [if_neg (by omega), if_neg (by omega)]

theorem getLast?_cons_getD {α : Type} (a d : α) (l : List α) :
    (a :: l).getLast?.getD d = l.getLast?.getD a := by
  cases l with
  | nil => rfl
  | cons b rest => rw [List.getLast?_cons_cons]; rfl

/-- Applying the options built by a list of constructor calls to any starting
options. -/
theorem foldl_optionCalls (calls : List OptionCall) (o0 : requestOpts) :
    ((calls.map OptionCall.toOption).foldl (fun o opt => opt o) o0).numRetries
      = (retryArgs calls).getLast?.getD o0.numRetries ∧
    ((calls.map OptionCall.toOption).foldl (fun o opt => opt o) o0).rateLimitChannel
      = (rateLimitArgs calls).getLast?.getD o0.rateLimitChannel ∧
    ((calls.map OptionCall.toOption).foldl (fun o opt => opt o) o0).desiredStatus
      = o0.desiredStatus ++ statusArgs calls ∧
    ((calls.map OptionCall.toOption).foldl (fun o opt => opt o) o0).backoffDuration
      = o0.backoffDuration := by
  induction calls generalizing o0 with
  | nil => simp [retryArgs, rateLimitArgs, statusArgs]
  | cons c rest ih =>
    rw [List.map_cons, List.foldl_cons]
    obtain ⟨h1, h2, h3, h4⟩ := ih (c.toOption o0)
    rw [h1, h2, h3, h4]
    cases c with
    | retry n =>
      simp only [retryArgs, rateLimitArgs, statusArgs, List.filterMap_cons,
        OptionCall.toOption, withRetry]
      exact ⟨(getLast?_cons_getD _ _ _).symm, trivial, trivial, trivial⟩
    | status code =>
      simp only [retryArgs, rateLimitArgs, statusArgs, List.filterMap_cons,
        OptionCall.toOption, withStatus, List.append_assoc, List.singleton_append]
      exact ⟨trivial, trivial, trivial, trivial⟩
    | rateLimit ch =>
      simp only [retryArgs, rateLimitArgs, statusArgs, List.filterMap_cons,
        OptionCall.toOption, withRateLimit]
      exact ⟨trivial, (getLast?_cons_getD _ _ _).symm, trivial, trivial⟩

theorem sliceContainsInt_iff (l : List Int) (i : Int) :
    sliceContainsInt l i = true ↔ i ∈ l := by
  induction l with
  | nil => simp [sliceContainsInt]
  | cons a rest ih =>
    unfold sliceContainsInt
    by_cases h : a = i
    · simp [h]
    · have h2 : ¬ i = a := fun e => h e.symm
      simp [h, h2, ih]

/-- The options that a list of constructor calls produces from the defaults. -/
theorem applyOpts_fields (calls : List OptionCall) :
    (applyOpts (calls.map OptionCall.toOption)).numRetries
      = (retryArgs calls).getLast?.getD 0 ∧
    (applyOpts (calls.map OptionCall.toOption)).rateLimitChannel
      = (rateLimitArgs calls).getLast?.getD none ∧
    (applyOpts (calls.map OptionCall.toOption)).desiredStatus = statusArgs calls ∧
    (applyOpts (calls.map OptionCall.toOption)).backoffDuration = 5 * second := by
  obtain ⟨h1, h2, h3, h4⟩ := foldl_optionCalls calls defaultOpts
  refine ⟨h1, h2, ?_, h4⟩
  rw [applyOpts, h3]
  rfl

/-- C10: applying the options built by any list of `withRetry`, `withStatus` and
`withRateLimit` calls to the defaults gives: `numRetries` is the argument of the last
`withRetry` (0 if there is none), the channel is the argument of the last
`withRateLimit` (nil if there is none), `desiredStatus` is the list of all
`withStatus` arguments in order, and the backoff stays 5 s.  Consequently two option
lists whose `withStatus` arguments form the same set (in particular after permuting or
duplicating them) accept the same statuses under `sliceContainsInt`. -/
theorem applyOpts_optionCalls :
    (∀ calls : List OptionCall,
      (applyOpts (calls.map OptionCall.toOption)).numRetries
        = (retryArgs calls).getLast?.getD 0 ∧
      (applyOpts (calls.map OptionCall.toOption)).rateLimitChannel
        = (rateLimitArgs calls).getLast?.getD none ∧
      (applyOpts (calls.map OptionCall.toOption)).desiredStatus = statusArgs calls ∧
      (applyOpts (calls.map OptionCall.toOption)).backoffDuration = 5 * second) ∧
    (∀ calls1 calls2 : List OptionCall,
      (∀ code, code ∈ statusArgs calls1 ↔ code ∈ statusArgs calls2) →
      ∀ status : Int,
        sliceContainsInt (applyOpts (calls1.map OptionCall.toOption)).desiredStatus status
          = sliceContainsInt (applyOpts (calls2.map OptionCall.toOption)).desiredStatus
              status) := by
  refine ⟨applyOpts_fields, ?_⟩
  intro calls1 calls2 hset status
  rw [(applyOpts_fields calls1).2.2.1, (applyOpts_fields calls2).2.2.1]
  have h1 := sliceContainsInt_iff (statusArgs calls1) status
  have h2 := sliceContainsInt_iff (statusArgs calls2) status
  have h3 := hset status
  cases hc1 : sliceContainsInt (statusArgs calls1) status <;>
    cases hc2 : sliceContainsInt (statusArgs calls2) status <;> simp_all

/-- Witness of `applyOpts_optionCalls`: the acceptable set `200, 404` written in two
orders and with a repetition. -/
theorem applyOpts_optionCalls_witness :
    sliceContainsInt (applyOpts ([OptionCall.status 200, .retry 3, .status 404].map
        OptionCall.toOption)).desiredStatus 404
      = sliceContainsInt (applyOpts ([OptionCall.status 404, .status 200, .status 404,
          .retry 1].map OptionCall.toOption)).desiredStatus 404 :=
  applyOpts_optionCalls.2 [OptionCall.status 200, .retry 3, .status 404]
    [OptionCall.status 404, .status 200, .status 404, .retry 1]
    (by intro code; simp [statusArgs]; omega) 404

theorem doRequest_sleeps (w : World) (req : Request) (opts : List requestOption) :
    sleeps (doRequest w req opts).trace =
      (List.range (attemptsMade w req (applyOpts opts)
          ((applyOpts opts).numRetries + 1).toNat 0)).map
        (fun j => if j = 0 then 0 else nextWait w req (applyOpts opts) (j - 1)) := by
  rw [doRequest_eq, attempts_sleeps]
  simp [sleeps]

/-- C8 (refuted as stated): the first attempt is answered 429 with the single parseable
header value `X-Ratelimit-Reset: 1000000000000` while the clock reads 1700000000 s.
The wait before the second attempt is the largest Duration, 9223372036854775807 ns,
and not (reset epoch + 1 s) - now. -/
theorem doRequest_wait_saturates :
    throttleReset (applyOpts [withRetry 1])
        ((constWorld (throttled "1000000000000") (1700000000 * second)).api
          exampleRequest 0) = some 1000000000000 ∧
    (sleeps (doRequest (constWorld (throttled "1000000000000") (1700000000 * second))
        exampleRequest [withRetry 1]).trace)[1]? = some 9223372036854775807 ∧
    (9223372036854775807 : Int) ≠ (1000000000000 + 1) * second - 1700000000 * second := by
  decide

/-- C8 (amended): every attempt of `doRequest` sleeps once before its call; the first
sleep is zero; the sleep before attempt `k + 1` is 5 s unless attempt `k` was answered
429 (not acceptable) with exactly one parseable `X-Ratelimit-Reset` value, and in that
case it is `time.Until` of one second past the reset epoch: the duration
(reset epoch + 1 s) - now whenever that time is representable and the duration is
within the range of a 64-bit nanosecond Duration (saturated to that range otherwise).
In particular a reset epoch between 9 s and 10 s ahead of the clock gives a wait
between 10 s and 11 s, not 5 s. -/
theorem doRequest_wait_schedule (w : World) (req : Request) (calls : List OptionCall) :
    (sleeps (doRequest w req (calls.map OptionCall.toOption)).trace).length
      = callCount (doRequest w req (calls.map OptionCall.toOption)).trace ∧
    (∀ d, (sleeps (doRequest w req (calls.map OptionCall.toOption)).trace)[0]? = some d →
      d = 0) ∧
    (∀ (k : Nat) (d : Int),
      (sleeps (doRequest w req (calls.map OptionCall.toOption)).trace)[k + 1]? = some d →
      (throttleReset (applyOpts (calls.map OptionCall.toOption)) (w.api req k) = none →
        d = 5 * second) ∧
      (∀ epoch : Int,
        throttleReset (applyOpts (calls.map OptionCall.toOption)) (w.api req k)
          = some epoch →
        d = untilReset (w.now k) epoch ∧
        (epoch + 1 + unixToInternal < 2 ^ 63 →
          minDuration ≤ (epoch + 1) * second - w.now k →
          (epoch + 1) * second - w.now k ≤ maxDuration →
          d = (epoch + 1) * second - w.now k) ∧
        (epoch + 1 + unixToInternal < 2 ^ 63 →
          9 * second ≤ epoch * second - w.now k →
          epoch * second - w.now k ≤ 10 * second →
          10 * second ≤ d ∧ d ≤ 11 * second ∧ d ≠ 5 * second))) := by
  refine ⟨?_, ?_, ?_⟩
  · rw [doRequest_sleeps, doRequest_eq, attempts_callCount]
    simp [callCount]
  · intro d hd
    rw [doRequest_sleeps, List.getElem?_map] at hd
    cases hr : (List.range (attemptsMade w req (applyOpts (calls.map OptionCall.toOption))
        ((applyOpts (calls.map OptionCall.toOption)).numRetries + 1).toNat 0))[0]? with
    | none => rw [hr] at hd; simp at hd
    | some j =>
      rw [hr] at hd
      have hj : j = 0 := by
        have := List.getElem?_eq_some_iff.mp hr
        obtain ⟨hlt, he⟩ := this
        rw [List.getElem_range] at he
        exact he.symm
      subst hj
      simpa using hd.symm
  · intro k d hd
    rw [doRequest_sleeps, List.getElem?_map] at hd
    have hd2 : d = nextWait w req (applyOpts (calls.map OptionCall.toOption)) k := by
      cases hr : (List.range (attemptsMade w req (applyOpts (calls.map OptionCall.toOption))
          ((applyOpts (calls.map OptionCall.toOption)).numRetries + 1).toNat 0))[k + 1]? with
      | none => rw [hr] at hd; simp at hd
      | some j =>
        rw [hr] at hd
        have hj : j = k + 1 := by
          obtain ⟨hlt, he⟩ := List.getElem?_eq_some_iff.mp hr
          rw [List.getElem_range] at he
          exact he.symm
        subst hj
        simpa using hd.symm
    have hb : (applyOpts (calls.map OptionCall.toOption)).backoffDuration = 5 * second :=
      (applyOpts_fields calls).2.2.2
    constructor
    · intro hnone
      rw [hd2, nextWait, hnone]
      exact hb
    · intro epoch hsome
      have hdu : d = untilReset (w.now k) epoch := by
        rw [hd2, nextWait, hsome]
      have hrange := throttleReset_range _ _ _ hsome
      refine ⟨hdu, ?_, ?_⟩
      · intro h1 h2 h3
        rw [hdu]
        exact untilReset_exact _ _ hrange.1 h1 h2 h3
      · intro h1 h2 h3
        have hex : untilReset (w.now k) epoch = (epoch + 1) * second - w.now k := by
          apply untilReset_exact _ _ hrange.1 h1
          · unfold minDuration; unfold second at *; omega
          · unfold maxDuration; unfold second at *; omega
        rw [hdu, hex]
        unfold second at *
        omega

/-- Witness of `doRequest_wait_schedule`: a 429 answer whose reset epoch 1700000010 is
9.75 s ahead of the clock makes the second attempt wait 10.75 s. -/
theorem doRequest_wait_schedule_witness :
    10 * second ≤ (10750000000 : Int) ∧ (10750000000 : Int) ≤ 11 * second ∧
      (10750000000 : Int) ≠ 5 * second :=
  (((doRequest_wait_schedule (constWorld (throttled "1700000010") 1700000000250000000)
    exampleRequest [OptionCall.status 204, .retry 1]).2.2 0 10750000000
      (by decide)).2 1700000010 (by decide)).2.2 (by decide) (by decide) (by decide)

/-! ## Lemmas on slices and import identifiers -/

theorem foundIn_iff {α : Type} [DecidableEq α] (x : α) (b : List α) :
    foundIn x b = true ↔ x ∈ b := by
  induction b with
  | nil => simp [foundIn]
  | cons y rest ih =>
    unfold foundIn
    by_cases h : x = y
    · simp [h]
    · simp [h, ih]

theorem allFound_iff {α : Type} [DecidableEq α] (a b : List α) :
    allFound a b = true ↔ ∀ x ∈ a, x ∈ b := by
  induction a with
  | nil => simp [allFound]
  | cons x rest ih =>
    unfold allFound
    by_cases h : foundIn x b = true
    · have hx := (foundIn_iff x b).mp h
      simp [h, ih, hx]
    · have hx : x ∉ b := fun hm => h ((foundIn_iff x b).mpr hm)
      simp [h, hx]

theorem sliceContentsAreEqual_iff {α : Type} [DecidableEq α] (a b : List α) :
    sliceContentsAreEqual a b = true ↔ a.length = b.length ∧ ∀ x ∈ a, x ∈ b := by
  unfold sliceContentsAreEqual
  by_cases h : a.length = b.length
  · simp [h, allFound_iff]
  · simp [h]

theorem cutAt_append (sep : Char) (a rest : List Char) (h : sep ∉ a) :
    cutAt sep (a ++ sep :: rest) = some (a, rest) := by
  induction a with
  | nil => simp [cutAt]
  | cons c cs ih =>
    have hc : c ≠ sep := fun e => h (by simp [e])
    have hcs : sep ∉ cs := fun e => h (by simp [e])
    simp [cutAt, hc, ih hcs]

theorem cutAt_none (sep : Char) (a : List Char) (h : sep ∉ a) : cutAt sep a = none := by
  induction a with
  | nil => rfl
  | cons c cs ih =>
    have hc : c ≠ sep := fun e => h (by simp [e])
    have hcs : sep ∉ cs := fun e => h (by simp [e])
    simp [cutAt, hc, ih hcs]

theorem cutAt_some (sep : Char) (s pre post : List Char) (h : cutAt sep s = some (pre, post)) :
    s = pre ++ sep :: post ∧ sep ∉ pre := by
  induction s generalizing pre with
  | nil => simp [cutAt] at h
  | cons c cs ih =>
    unfold cutAt at h
    by_cases hc : c = sep
    · simp only [hc, if_true, Option.some.injEq, Prod.mk.injEq] at h
      obtain ⟨h1, h2⟩ := h
      subst h1 h2 hc
      simp
    · simp only [hc, if_false] at h
      cases hcut : cutAt sep cs with
      | none => rw [hcut] at h; simp at h
      | some p =>
        obtain ⟨pre1, post1⟩ := p
        rw [hcut] at h
        simp only [Option.some.injEq, Prod.mk.injEq] at h
        obtain ⟨h1, h2⟩ := h
        subst h1 h2
        obtain ⟨e, hn⟩ := ih pre1 hcut
        refine ⟨by rw [e]; rfl, ?_⟩
        intro hm
        rcases List.mem_cons.mp hm with h3 | h3
        · exact hc h3.symm
        · exact hn h3

theorem splitN_three (a b c : List Char) (ha : ':' ∉ a) (hb : ':' ∉ b) :
    splitN ':' 3 (a ++ ':' :: (b ++ ':' :: c)) = [a, b, c] := by
  simp [splitN, cutAt_append _ _ _ ha, cutAt_append _ _ _ hb]

theorem splitN_three_inv (s a b c : List Char) (h : splitN ':' 3 s = [a, b, c]) :
    s = a ++ ':' :: (b ++ ':' :: c) ∧ ':' ∉ a ∧ ':' ∉ b := by
  unfold splitN at h
  cases h1 : cutAt ':' s with
  | none => rw [h1] at h; simp at h
  | some p =>
    obtain ⟨pre, post⟩ := p
    rw [h1] at h
    simp only [List.cons.injEq] at h
    obtain ⟨e1, h⟩ := h
    subst e1
    unfold splitN at h
    cases h2 : cutAt ':' post with
    | none => rw [h2] at h; simp at h
    | some q =>
      obtain ⟨pre2, post2⟩ := q
      rw [h2] at h
      simp only [splitN, List.cons.injEq, and_true] at h
      obtain ⟨e2, e3⟩ := h
      subst e2 e3
      obtain ⟨hs1, hn1⟩ := cutAt_some _ _ _ _ h1
      obtain ⟨hs2, hn2⟩ := cutAt_some _ _ _ _ h2
      exact ⟨by rw [hs1, hs2], hn1, hn2⟩

theorem splitN_length_le (sep : Char) (n : Nat) (s : List Char) :
    (splitN sep n s).length ≤ n := by
  induction n using Nat.strongRecOn generalizing s with
  | _ n ih =>
    match n with
    | 0 => simp [splitN]
    | 1 => simp [splitN]
    | m + 2 =>
      unfold splitN
      cases cutAt sep s with
      | none => simp
      | some p =>
        have := ih (m + 1) (by omega) p.2
        simp only [List.length_cons]
        omega

theorem importParts_three (a b c : String) (ha : ':' ∉ a.toList) (hb : ':' ∉ b.toList) :
    importParts (a ++ ":" ++ b ++ ":" ++ c) = [a, b, c] := by
  unfold importParts
  have e : (a ++ ":" ++ b ++ ":" ++ c).toList
      = a.toList ++ ':' :: (b.toList ++ ':' :: c.toList) := by
    simp [String.toList, String.data_append]
  rw [e, splitN_three _ _ _ ha hb]
  rfl

theorem parseInt_range32 (s : String) (v : Int) (h : parseInt s 32 = some v) :
    -(2 ^ 31) ≤ v ∧ v < 2 ^ 31 := by
  unfold parseInt at h
  simp only at h
  split at h
  · exact absurd h (by simp)
  · split at h
    · exact absurd h (by simp)
    · rename_i n _
      split at h
      · split at h
        · simp only [Option.some.injEq] at h
          have : (n : Int) ≤ 2 ^ 31 := by exact_mod_cast (by assumption : n ≤ 2 ^ (32 - 1))
          omega
        · exact absurd h (by simp)
      · split at h
        · simp only [Option.some.injEq] at h
          have : (n : Int) < 2 ^ 31 := by exact_mod_cast (by assumption : n < 2 ^ (32 - 1))
          omega
        · exact absurd h (by simp)

theorem importParts_inv (s a b c : String) (h : importParts s = [a, b, c]) :
    s = a ++ ":" ++ b ++ ":" ++ c ∧ ':' ∉ a.toList ∧ ':' ∉ b.toList := by
  unfold importParts at h
  match hs : splitN ':' 3 s.toList with
  | [] => rw [hs] at h; simp at h
  | [_] => rw [hs] at h; simp at h
  | [_, _] => rw [hs] at h; simp at h
  | _ :: _ :: _ :: _ :: _ => rw [hs] at h; simp at h
  | [l0, l1, l2] =>
    rw [hs] at h
    simp only [List.map_cons, List.map_nil, List.cons.injEq, and_true] at h
    obtain ⟨e0, e1, e2⟩ := h
    subst e0 e1 e2
    obtain ⟨e, h0, h1⟩ := splitN_three_inv _ _ _ _ hs
    refine ⟨?_, h0, h1⟩
    apply String.ext
    rw [show s.data = s.toList from rfl, e]
    simp [String.data_append]

/-! ## Properties of slices, import identifiers and secret positions -/

/-- C14: for every non-empty `id` and non-empty `destination` without `':'` and every
`on_behalf_of` (possibly empty, possibly containing `':'`),
`parseAPIKeyImportID(id + ":" + destination + ":" + on_behalf_of)` returns
`(id, destination, on_behalf_of)` with a nil error. -/
theorem parseAPIKeyImportID_roundtrip (id dest onBehalfOf : String) (h1 : id ≠ "")
    (h2 : dest ≠ "") (h3 : ':' ∉ id.toList) (h4 : ':' ∉ dest.toList) :
    parseAPIKeyImportID (id ++ ":" ++ dest ++ ":" ++ onBehalfOf)
      = .ok (id, dest, onBehalfOf) := by
  unfold parseAPIKeyImportID
  rw [importParts_three id dest onBehalfOf h3 h4]
  simp [h1, h2]

/-- Witness of `parseAPIKeyImportID_roundtrip`: an `on_behalf_of` that contains `':'`. -/
theorem parseAPIKeyImportID_roundtrip_witness :
    parseAPIKeyImportID ("abc123" ++ ":" ++ "/tmp/key" ++ ":" ++ "jane:doe")
      = .ok ("abc123", "/tmp/key", "jane:doe") :=
  parseAPIKeyImportID_roundtrip "abc123" "/tmp/key" "jane:doe" (by decide) (by decide)
    (by decide) (by decide)

/-- C15: `parseSubuserImportID(s)` succeeds exactly when `s` splits at its first two
`':'` into three non-empty fields whose third field is accepted by
`strconv.ParseInt(_, 10, 32)`, a base-10 integer in the signed 32-bit range; it then
returns the first field as the id and one password block with the second field as
destination and the parsed integer as length, and in every other case it returns an
error.  For example `"user:/tmp/f:16"` gives `("user", [(destination "/tmp/f",
length 16)])`. -/
theorem parseSubuserImportID_spec :
    (∀ (a b c : String) (v : Int), a ≠ "" → b ≠ "" → c ≠ "" → ':' ∉ a.toList →
      ':' ∉ b.toList → parseInt c 32 = some v →
      parseSubuserImportID (a ++ ":" ++ b ++ ":" ++ c) = .ok (a, [⟨b, v⟩]) ∧
        -(2 ^ 31) ≤ v ∧ v < 2 ^ 31) ∧
    (∀ (s : String) (r : String × List PasswordBlock), parseSubuserImportID s = .ok r →
      ∃ (a b c : String) (v : Int), s = a ++ ":" ++ b ++ ":" ++ c ∧ a ≠ "" ∧ b ≠ "" ∧
        c ≠ "" ∧ ':' ∉ a.toList ∧ ':' ∉ b.toList ∧ parseInt c 32 = some v ∧
        r = (a, [⟨b, v⟩])) ∧
    parseSubuserImportID "user:/tmp/f:16" = .ok ("user", [⟨"/tmp/f", 16⟩]) := by
  refine ⟨?_, ?_, by rfl⟩
  · intro a b c v ha hb hc hna hnb hv
    refine ⟨?_, parseInt_range32 c v hv⟩
    unfold parseSubuserImportID
    rw [importParts_three a b c hna hnb]
    simp [ha, hb, hc, hv]
  · intro s r h
    unfold parseSubuserImportID at h
    simp only at h
    split at h
    · exact absurd h (by simp)
    · rename_i hcond
      simp only [not_or, not_not] at hcond
      obtain ⟨hlen, h0, h1, h2⟩ := hcond
      match hp : importParts s with
      | [] => rw [hp] at hlen; simp at hlen
      | [_] => rw [hp] at hlen; simp at hlen
      | [_, _] => rw [hp] at hlen; simp at hlen
      | _ :: _ :: _ :: _ :: _ => rw [hp] at hlen; simp at hlen
      | [a, b, c] =>
        rw [hp] at h h0 h1 h2
        simp only [List.getD_cons_zero, List.getD_cons_succ] at h h0 h1 h2
        obtain ⟨es, hna, hnb⟩ := importParts_inv s a b c hp
        cases hv : parseInt c 32 with
        | none => rw [hv] at h; simp at h
        | some v =>
          rw [hv] at h
          simp only [Except.ok.injEq] at h
          exact ⟨a, b, c, v, es, h0, h1, h2, hna, hnb, hv, h.symm⟩

/-- Witness of `parseSubuserImportID_spec`: the import ID of the acceptance test. -/
theorem parseSubuserImportID_spec_witness :
    parseSubuserImportID ("user" ++ ":" ++ "/tmp/f" ++ ":" ++ "16")
        = .ok ("user", [⟨"/tmp/f", 16⟩]) ∧ -(2 ^ 31) ≤ (16 : Int) ∧ (16 : Int) < 2 ^ 31 :=
  parseSubuserImportID_spec.1 "user" "/tmp/f" "16" 16 (by decide) (by decide) (by decide)
    (by decide) (by decide) (by decide)

/-- C16: for every length `L ≥ 2` for which the slice of `L + 2` random bytes can be
made (`L + 2` is at most `maxAlloc` and at most the memory that the runtime can
provide) and random bytes `r[k] = randByte src k`, the derived indices `i = r[L] % L` and `i2 = r[L+1] % L`
(replaced by `(i2 + 1) % L` when it equals `i`) both lie in `[0, L)` and differ; the
secret has the digit `numbers[r[L] % 10]` at position `i`, the letter
`letters[r[L+1] % 52]` at position `i2`, and `validChars[r[k] % 76]` at every other
position `k < L`. -/
theorem genPassword_positions (src : RandSource) (L : Int) (hL : 2 ≤ L)
    (halloc : L + 2 ≤ maxAlloc) (hmem : L + 2 ≤ (src.memory : Int))
    (hsrc : src.readErr = none) :
    ∃ out, genPassword src L = .ok out ∧
      digitIndex src L.toNat = randByte src L.toNat % L.toNat ∧
      letterIndex src L.toNat =
        (if randByte src L.toNat % L.toNat = randByte src (L.toNat + 1) % L.toNat
          then (randByte src (L.toNat + 1) % L.toNat + 1) % L.toNat
          else randByte src (L.toNat + 1) % L.toNat) ∧
      digitIndex src L.toNat < L.toNat ∧ letterIndex src L.toNat < L.toNat ∧
      digitIndex src L.toNat ≠ letterIndex src L.toNat ∧
      out[digitIndex src L.toNat]? = some (numbers.getD (randByte src L.toNat % 10) 0) ∧
      out[letterIndex src L.toNat]?
        = some (letters.getD (randByte src (L.toNat + 1) % 52) 0) ∧
      ∀ k, k < L.toNat → k ≠ digitIndex src L.toNat → k ≠ letterIndex src L.toNat →
        out[k]? = some (validChars.getD (randByte src k % 76) 0) := by
  have hn : 2 ≤ L.toNat := by omega
  have hd := digitIndex_lt src _ hn
  have hl := letterIndex_lt src _ hn
  have hne := letterIndex_ne_digitIndex src _ hn
  have hget : ∀ k, k < L.toNat →
      ((List.range L.toNat).map (secretAt src L.toNat))[k]? = some (secretAt src L.toNat k) := by
    intro k hk
    rw [List.getElem?_map, List.getElem?_range hk]
    rfl
  refine ⟨_, genPassword_eq src L hL halloc hmem hsrc, rfl, rfl, hd, hl, fun h => hne h.symm,
    ?_, ?_, ?_⟩
  · rw [hget _ hd]
    unfold secretAt
    rw [if_neg (fun h => hne h.symm), if_pos rfl]
  · rw [hget _ hl]
    unfold secretAt
    rw [if_pos rfl]
  · intro k hk h1 h2
    rw [hget _ hk]
    unfold secretAt
    rw [if_neg h2, if_neg h1]
    rfl

/-- Witness of `genPassword_positions`: length 4 with the random bytes
`0, 0, 0, 200, 7, 9` gives the indices 3 and 1 and the secret `0J07`. -/
theorem genPassword_positions_witness :
    ∃ out, genPassword ⟨none, fun k => [0, 0, 0, 200, 7, 9].getD k 0, 64⟩ 4 = .ok out ∧
      out[3]? = some 55 ∧ out[1]? = some 74 :=
  have h := genPassword_positions ⟨none, fun k => [0, 0, 0, 200, 7, 9].getD k 0, 64⟩ 4
    (by decide) (by decide) (by decide) rfl
  match h with
  | ⟨out, h1, _, _, _, _, _, h7, h8, _⟩ => ⟨out, h1, h7, h8⟩

/-- C18 (refuted as stated): with a repeated element the result is neither multiset
equality nor symmetric: `sliceContentsAreEqual([1 1], [1 2])` is true although the
lists are no permutations of each other, and with the arguments swapped it is
false. -/
theorem sliceContentsAreEqual_not_multiset :
    sliceContentsAreEqual [1, 1] [1, 2] = true ∧ ¬ List.Perm [1, 1] [1, 2] ∧
      sliceContentsAreEqual [1, 2] [1, 1] = false := by
  refine ⟨by decide, ?_, by decide⟩
  intro h
  have := h.mem_iff (a := 2)
  simp at this

/-- C18 (amended): `sliceContentsAreEqual(a, b)` is true exactly when the lengths are
equal and every element of `a` occurs in `b`; it is true whenever `a` is a permutation
of `b`. -/
theorem sliceContentsAreEqual_characterisation {α : Type} [DecidableEq α] (a b : List α) :
    (sliceContentsAreEqual a b = true ↔ a.length = b.length ∧ ∀ x ∈ a, x ∈ b) ∧
    (a.Perm b → sliceContentsAreEqual a b = true) := by
  refine ⟨sliceContentsAreEqual_iff a b, ?_⟩
  intro h
  exact (sliceContentsAreEqual_iff a b).mpr ⟨h.length_eq, fun x hx => h.mem_iff.mp hx⟩

/-- Witness of `sliceContentsAreEqual_characterisation`: a list and a rotation of it. -/
theorem sliceContentsAreEqual_characterisation_witness :
    sliceContentsAreEqual ["mail.send", "alerts.read", "stats.read"]
      ["alerts.read", "stats.read", "mail.send"] = true :=
  (sliceContentsAreEqual_characterisation ["mail.send", "alerts.read", "stats.read"]
    ["alerts.read", "stats.read", "mail.send"]).2 (by decide)

/-! ## Lemmas on the delete operations -/

theorem deleteOpts_eq (ch : Nat) :
    applyOpts [withStatus statusNoContent, withRateLimit (some ch), withRetry 5]
      = ⟨[204], 5, defaultBackoff, some ch⟩ := rfl

/-- A `doRequest` call with the delete options in which none of the six attempts is
accepted: six calls, and the end is decided by the sixth outcome. -/
theorem doRequest_delete_exhausted (w : World) (req : Request) (ch : Nat)
    (h : ∀ k, k ≤ 5 → accepted ⟨[204], 5, defaultBackoff, some ch⟩ (w.api req k) = false) :
    callCount (doRequest w req
        [withStatus statusNoContent, withRateLimit (some ch), withRetry 5]).trace = 6 ∧
    (doRequest w req
        [withStatus statusNoContent, withRateLimit (some ch), withRetry 5]).outcome
      = finishOutcome ⟨[204], 5, defaultBackoff, some ch⟩ (w.api req 5).res (w.api req 5).err := by
  rw [doRequest_eq, deleteOpts_eq]
  have e : ((5 : Int) + 1).toNat = 5 + 1 := rfl
  simp only [e]
  constructor
  · rw [attempts_callCount, attemptsMade_eq _ _ _ _ _ (fun j hj => by
      rw [Nat.zero_add]; exact h j (by omega))]
    rfl
  · rw [attempts_outcome_exhausted _ _ _ 5 0 _ (fun j hj => by
      rw [Nat.zero_add]; exact h j (by omega))]

/-- The end of a delete whose `doRequest` call runs out of attempts with a last answer
of status 404: the "unexpected status code" error is dropped. -/
theorem deleteResult_not_found (message : String) (w : World) (req : Request) (ch : Nat)
    (res : Response)
    (h : ∀ k, k ≤ 5 → ∀ r, w.api req k = .response r → r.StatusCode ≠ 204)
    (hlast : w.api req 5 = .response res) (h404 : res.StatusCode = 404) :
    deleteResult message (doRequest w req
        [withStatus statusNoContent, withRateLimit (some ch), withRetry 5]).outcome
      = .returned none ∧
    callCount (doRequest w req
        [withStatus statusNoContent, withRateLimit (some ch), withRetry 5]).trace = 6 ∧
    (doRequest w req
        [withStatus statusNoContent, withRateLimit (some ch), withRetry 5]).outcome
      = .returned (some res)
          (some (.errorf "response contained unexpected status code: 404")) := by
  have hacc : ∀ k, k ≤ 5 →
      accepted ⟨[204], 5, defaultBackoff, some ch⟩ (w.api req k) = false := by
    intro k hk
    cases hapi : w.api req k with
    | failure r msg => rfl
    | response r =>
      have := h k hk r hapi
      have h2 : ¬ (204 : Int) = r.StatusCode := fun e => this e.symm
      simp [accepted, sliceContainsInt, h2]
  obtain ⟨hc, ho⟩ := doRequest_delete_exhausted w req ch hacc
  have hout : (doRequest w req
      [withStatus statusNoContent, withRateLimit (some ch), withRetry 5]).outcome
      = .returned (some res)
          (some (.errorf "response contained unexpected status code: 404")) := by
    rw [ho, hlast]
    simp only [finishOutcome, APIResult.res, APIResult.err, sliceContainsInt, h404]
    rfl
  refine ⟨?_, hc, hout⟩
  rw [hout]
  simp [deleteResult, h404, statusNotFound]

/-- The end of a delete whose six attempts all fail without a response. -/
theorem deleteResult_no_response (message : String) (w : World) (req : Request) (ch : Nat)
    (h : ∀ k, k ≤ 5 → ∃ msg, w.api req k = .failure none msg) :
    ∃ msg, deleteResult message (doRequest w req
        [withStatus statusNoContent, withRateLimit (some ch), withRetry 5]).outcome
      = .panicked msg := by
  have hacc : ∀ k, k ≤ 5 →
      accepted ⟨[204], 5, defaultBackoff, some ch⟩ (w.api req k) = false := by
    intro k hk
    obtain ⟨msg, hm⟩ := h k hk
    rw [hm]
    rfl
  obtain ⟨_, ho⟩ := doRequest_delete_exhausted w req ch hacc
  obtain ⟨msg, hm⟩ := h 5 (Nat.le_refl 5)
  rw [ho, hm]
  exact ⟨_, rfl⟩

/-! ## Properties of the delete operations -/

/-- C11 (refuted as stated): every call is answered 404.  `doRequest` inside
`resourceSubuserDelete` does not return on the first attempt: it makes six calls and
returns the "unexpected status code: 404" error; the delete then returns nil.  And
when the first answer is 404 and the later ones are 500, the delete returns an
error. -/
theorem delete_first_404_is_retried :
    callCount (subuserDeleteCall exampleLibrary (constWorld ⟨404, "", []⟩ 0)
        "key" "jane").trace = 6 ∧
    (subuserDeleteCall exampleLibrary (constWorld ⟨404, "", []⟩ 0) "key" "jane").outcome
      = .returned (some ⟨404, "", []⟩)
          (some (.errorf "response contained unexpected status code: 404")) ∧
    resourceSubuserDelete exampleLibrary (constWorld ⟨404, "", []⟩ 0) "key" "jane"
      = .returned none ∧
    resourceSubuserDelete exampleLibrary
        ⟨fun _ k => if k = 0 then .response ⟨404, "", []⟩ else .response ⟨500, "", []⟩,
          fun _ => 0⟩ "key" "jane"
      = .returned (some (.wrap (.base
          (.errorf "response contained unexpected status code: 500"))
          "failed to delete subuser")) := by
  decide

/-- C11 (amended): both delete operations run `doRequest` with the acceptable set
`204` alone, five retries and their rate limiter, so an answer 404 is retried.  When no
attempt is answered 204 and the sixth answer has status 404, six calls are made,
`doRequest` returns that response with the "unexpected status code: 404" error, and
the delete returns nil (already deleted). -/
theorem delete_not_found_after_retries (lib : Library) (w : World)
    (apiKey id onBehalfOf : String) (res : Response) (h404 : res.StatusCode = 404) :
    ((∀ k, k ≤ 5 → ∀ r, w.api (subuserDeleteRequest lib apiKey id) k = .response r →
        r.StatusCode ≠ 204) →
      w.api (subuserDeleteRequest lib apiKey id) 5 = .response res →
      resourceSubuserDelete lib w apiKey id = .returned none ∧
      callCount (subuserDeleteCall lib w apiKey id).trace = 6 ∧
      (subuserDeleteCall lib w apiKey id).outcome = .returned (some res)
        (some (.errorf "response contained unexpected status code: 404"))) ∧
    ((∀ k, k ≤ 5 → ∀ r,
        w.api (apiKeyDeleteRequest lib apiKey id onBehalfOf) k = .response r →
        r.StatusCode ≠ 204) →
      w.api (apiKeyDeleteRequest lib apiKey id onBehalfOf) 5 = .response res →
      resourceAPIKeyDelete lib w apiKey id onBehalfOf = .returned none ∧
      callCount (apiKeyDeleteCall lib w apiKey id onBehalfOf).trace = 6 ∧
      (apiKeyDeleteCall lib w apiKey id onBehalfOf).outcome = .returned (some res)
        (some (.errorf "response contained unexpected status code: 404"))) := by
  constructor
  · intro h hlast
    exact deleteResult_not_found _ w _ deleteSubuserRate res h hlast h404
  · intro h hlast
    exact deleteResult_not_found _ w _ deleteAPIKeyRate res h hlast h404

/-- Witness of `delete_not_found_after_retries`: a server that always answers 404. -/
theorem delete_not_found_after_retries_witness :
    resourceAPIKeyDelete exampleLibrary (constWorld ⟨404, "", []⟩ 0) "key" "id1" "jane"
        = .returned none ∧
      callCount (apiKeyDeleteCall exampleLibrary (constWorld ⟨404, "", []⟩ 0)
        "key" "id1" "jane").trace = 6 ∧
      (apiKeyDeleteCall exampleLibrary (constWorld ⟨404, "", []⟩ 0)
        "key" "id1" "jane").outcome = .returned (some ⟨404, "", []⟩)
        (some (.errorf "response contained unexpected status code: 404")) :=
  (delete_not_found_after_retries exampleLibrary (constWorld ⟨404, "", []⟩ 0)
    "key" "id1" "jane" ⟨404, "", []⟩ rfl).2
    (fun _ _ r hr => by
      have : r = ⟨404, "", []⟩ := (APIResult.response.inj hr).symm
      rw [this]; decide) rfl

/-- Both delete operations panic when none of the six attempts yields a response. -/
theorem delete_without_response_panics (lib : Library) (w : World)
    (apiKey id onBehalfOf : String) :
    ((∀ k, k ≤ 5 → ∃ msg, w.api (subuserDeleteRequest lib apiKey id) k = .failure none msg) →
      ∃ msg, resourceSubuserDelete lib w apiKey id = .panicked msg) ∧
    ((∀ k, k ≤ 5 → ∃ msg,
        w.api (apiKeyDeleteRequest lib apiKey id onBehalfOf) k = .failure none msg) →
      ∃ msg, resourceAPIKeyDelete lib w apiKey id onBehalfOf = .panicked msg) :=
  ⟨fun h => deleteResult_no_response _ w _ deleteSubuserRate h,
    fun h => deleteResult_no_response _ w _ deleteAPIKeyRate h⟩

/-- C20 (the code reads the status of a missing response): every attempt fails at
transport level with a nil response.  `doRequest` makes its six calls and returns a
nil response with the transport error; the condition
`err == nil || res.StatusCode == http.StatusNotFound` of both delete functions then
dereferences the nil response and panics, where the claim asks for the wrapped
transport error. -/
theorem delete_nil_response_dereferenced :
    (subuserDeleteCall exampleLibrary (failingWorld "connection refused")
        "key" "jane").outcome
      = .returned none (some (.transport "connection refused")) ∧
    callCount (subuserDeleteCall exampleLibrary (failingWorld "connection refused")
        "key" "jane").trace = 6 ∧
    resourceSubuserDelete exampleLibrary (failingWorld "connection refused") "key" "jane"
      = .panicked "invalid memory address or nil pointer dereference" ∧
    resourceAPIKeyDelete exampleLibrary (failingWorld "connection refused")
        "key" "id1" ""
      = .panicked "invalid memory address or nil pointer dereference" := by
  decide

theorem getSubuser_error_wrapped (lib : Library) (w : World) (apiKey name : String)
    (u : Option subuser) (e : ResourceError)
    (h : getSubuser lib w apiKey name = .returned (u, some e)) :
    e.asRatelimitError = none := by
  unfold getSubuser at h
  simp only at h
  split at h
  · exact absurd h (by simp)
  · split at h
    · simp at h
    · split at h
      · simp only [CallResult.returned.injEq, Prod.mk.injEq, Option.some.injEq] at h
        rw [← h.2]; rfl
      · split at h
        · simp only [CallResult.returned.injEq, Prod.mk.injEq, Option.some.injEq] at h
          rw [← h.2]; rfl
        · simp at h
  · simp only [CallResult.returned.injEq, Prod.mk.injEq, Option.some.injEq] at h
    rw [← h.2]; rfl
  · exact absurd h (by simp)

theorem getAPIKey_error_wrapped (lib : Library) (w : World) (key id onBehalfOf : String)
    (k : Option apiKey) (e : ResourceError)
    (h : getAPIKey lib w key id onBehalfOf = .returned (k, some e)) :
    e.asRatelimitError = none := by
  unfold getAPIKey at h
  simp only at h
  split at h
  · exact absurd h (by simp)
  · simp only [CallResult.returned.injEq, Prod.mk.injEq, Option.some.injEq] at h
    rw [← h.2]; rfl
  · exact absurd h (by simp)
  · split at h
    · simp at h
    · split at h
      · simp only [CallResult.returned.injEq, Prod.mk.injEq, Option.some.injEq] at h
        rw [← h.2]; rfl
      · split at h <;> simp at h

theorem getDomain_error_wrapped (lib : Library) (w : World) (key username : String)
    (d : String) (e : ResourceError)
    (h : getDomain lib w key username = .returned (d, some e)) :
    e.asRatelimitError = none := by
  unfold getDomain at h
  simp only at h
  split at h
  · exact absurd h (by simp)
  · simp only [CallResult.returned.injEq, Prod.mk.injEq, Option.some.injEq] at h
    rw [← h.2]; rfl
  · exact absurd h (by simp)
  · split at h
    · simp only [CallResult.returned.injEq, Prod.mk.injEq, Option.some.injEq] at h
      rw [← h.2]; rfl
    · simp at h

theorem getIPs_error_wrapped (lib : Library) (w : World) (key username : String)
    (l : List String) (e : ResourceError)
    (h : getIPs lib w key username = .returned (l, some e)) :
    e.asRatelimitError = none := by
  unfold getIPs at h
  simp only at h
  split at h
  · exact absurd h (by simp)
  · simp only [CallResult.returned.injEq, Prod.mk.injEq, Option.some.injEq] at h
    rw [← h.2]; rfl
  · exact absurd h (by simp)
  · split at h
    · simp only [CallResult.returned.injEq, Prod.mk.injEq, Option.some.injEq] at h
      rw [← h.2]; rfl
    · simp at h

/-- The throttling branch of the four `Refresh` functions never runs: whatever the
requests are answered, no probe sleeps a rate-limit timeout. -/
theorem refresh_never_sleeps (lib : Library) (w : World) (key name email id onBehalfOf
    domain keyName : String) (disabled : Bool) (ips scopes : List String)
    (r : RefreshResult) :
    (waitForSubuserRefresh lib w key name email disabled = .returned r → r.slept = none) ∧
    (waitForDomainRefresh lib w key name domain = .returned r → r.slept = none) ∧
    (waitForIPsRefresh lib w key name ips = .returned r → r.slept = none) ∧
    (waitForAPIKeyRefresh lib w key id onBehalfOf keyName scopes = .returned r →
      r.slept = none) := by
  refine ⟨?_, ?_, ?_, ?_⟩
  · intro h
    unfold waitForSubuserRefresh at h
    cases hg : getSubuser lib w key name with
    | panicked msg => rw [hg] at h; simp at h
    | returned p =>
      obtain ⟨u, err⟩ := p
      rw [hg] at h
      have hb : err.bind ResourceError.asRatelimitError = none := by
        cases err with
        | none => rfl
        | some e => exact getSubuser_error_wrapped lib w key name u e hg
      simp only [hb] at h
      repeat' split at h
      all_goals
        simp only [CallResult.returned.injEq] at h
        rw [← h]
  · intro h
    unfold waitForDomainRefresh at h
    cases hg : getDomain lib w key name with
    | panicked msg => rw [hg] at h; simp at h
    | returned p =>
      obtain ⟨u, err⟩ := p
      rw [hg] at h
      have hb : err.bind ResourceError.asRatelimitError = none := by
        cases err with
        | none => rfl
        | some e => exact getDomain_error_wrapped lib w key name u e hg
      simp only [hb] at h
      repeat' split at h
      all_goals
        simp only [CallResult.returned.injEq] at h
        rw [← h]
  · intro h
    unfold waitForIPsRefresh at h
    cases hg : getIPs lib w key name with
    | panicked msg => rw [hg] at h; simp at h
    | returned p =>
      obtain ⟨u, err⟩ := p
      rw [hg] at h
      have hb : err.bind ResourceError.asRatelimitError = none := by
        cases err with
        | none => rfl
        | some e => exact getIPs_error_wrapped lib w key name u e hg
      simp only [hb] at h
      repeat' split at h
      all_goals
        simp only [CallResult.returned.injEq] at h
        rw [← h]
  · intro h
    unfold waitForAPIKeyRefresh at h
    cases hg : getAPIKey lib w key id onBehalfOf with
    | panicked msg => rw [hg] at h; simp at h
    | returned p =>
      obtain ⟨u, err⟩ := p
      rw [hg] at h
      have hb : err.bind ResourceError.asRatelimitError = none := by
        cases err with
        | none => rfl
        | some e => exact getAPIKey_error_wrapped lib w key id onBehalfOf u e hg
      simp only [hb] at h
      repeat' split at h
      all_goals
        simp only [CallResult.returned.injEq] at h
        rw [← h]

/-! ## Properties of the reconciliation probes -/

/-- C12 (the probes turn a throttled request into a fatal error): the request of each
probe is answered 429, not acceptable, with the single parseable header value
`X-Ratelimit-Reset: 1700000010`.  `doRequest` returns the "unexpected status code:
429" error (its `ratelimitError` is lost), the getter wraps it, the type assertion
`err.(ratelimitError)` of the `Refresh` function fails, and the probe returns that
error with the empty state, where the claim asks for `waiting` and a nil error. -/
theorem refresh_throttled_is_fatal :
    waitForSubuserRefresh exampleLibrary
        (constWorld (throttled "1700000010") (1700000000 * second))
        "key" "jane" "jane@example.org" false
      = .returned ⟨none, "", some (.wrap (.base
          (.errorf "response contained unexpected status code: 429"))
          "failed to query subuser"), none⟩ ∧
    waitForDomainRefresh exampleLibrary
        (constWorld (throttled "1700000010") (1700000000 * second)) "key" "jane" "0"
      = .returned ⟨some (.text ""), "", some (.wrap (.base
          (.errorf "response contained unexpected status code: 429"))
          "failed to query domain"), none⟩ ∧
    waitForIPsRefresh exampleLibrary
        (constWorld (throttled "1700000010") (1700000000 * second)) "key" "jane"
        ["10.0.0.1"]
      = .returned ⟨some (.text ""), "", some (.wrap (.base
          (.errorf "response contained unexpected status code: 429"))
          "failed to query IPs"), none⟩ ∧
    waitForAPIKeyRefresh exampleLibrary
        (constWorld (throttled "1700000010") (1700000000 * second)) "key" "id1" ""
        "ci" ["mail.send"]
      = .returned ⟨none, "", some (.wrap (.base
          (.errorf "response contained unexpected status code: 429"))
          "failed to query API key"), none⟩ := by
  decide

/-! ## Properties of the reconciler -/

/-- The configuration of the four reconcilers after `WaitForState` has replaced the
zero `NotFoundChecks` by 20. -/
theorem waitForState_waitConf (refreshes : List (CallResult RefreshResult)) :
    WaitForState waitConf refreshes
      = refreshLoop ⟨[statusWaiting], [statusDone], 3, 20⟩ refreshes 0 0 0 := rfl

/-- On probes that never return a nil result, the refresh loop of the four reconcilers
is done only at a probe whose result and the two results before it carry the state
`done`. -/
theorem refreshLoop_non_nil (rest done : List (CallResult RefreshResult))
    (notfoundTick targetOccurence k : Nat) (v : Option ProbeValue)
    (hnil : ∀ r, CallResult.returned r ∈ rest → r.result.isSome = true)
    (hc : targetOccurence ≤ done.length)
    (hinv : ∀ j, done.length - targetOccurence ≤ j → j < done.length →
      ∃ r, done[j]? = some (.returned r) ∧ r.state = statusDone)
    (h : refreshLoop ⟨[statusWaiting], [statusDone], 3, 20⟩ rest notfoundTick
      targetOccurence done.length = .done k v) :
    3 ≤ k ∧ k ≤ (done ++ rest).length ∧
      ∀ j, k - 3 ≤ j → j < k →
        ∃ r, (done ++ rest)[j]? = some (.returned r) ∧ r.state = statusDone := by
  induction rest generalizing done notfoundTick targetOccurence with
  | nil => simp [refreshLoop] at h
  | cons o rest ih =>
    have hlen : (done ++ [o]).length = done.length + 1 := by simp
    have happ : done ++ o :: rest = (done ++ [o]) ++ rest := by simp
    have hnil2 : ∀ r, CallResult.returned r ∈ rest → r.result.isSome = true :=
      fun r hr => hnil r (List.mem_cons_of_mem _ hr)
    cases o with
    | panicked msg => simp [refreshLoop] at h
    | returned r =>
      have hsome := hnil r (List.mem_cons_self _ _)
      cases herr : r.err with
      | some e => simp [refreshLoop, herr] at h
      | none =>
        cases hres : r.result with
        | none => rw [hres] at hsome; simp at hsome
        | some val =>
          by_cases hst : r.state = statusDone
          · have hnew : ∀ j, (done ++ [CallResult.returned r]).length
                  - (targetOccurence + 1) ≤ j →
                j < (done ++ [CallResult.returned r]).length →
                ∃ r2, (done ++ [CallResult.returned r])[j]? = some (.returned r2) ∧
                  r2.state = statusDone := by
              intro j h1 h2
              rw [hlen] at h1 h2
              by_cases hj : j < done.length
              · rw [List.getElem?_append_left hj]
                exact hinv j (by omega) hj
              · have : j = done.length := by omega
                subst this
                exact ⟨r, by simp, hst⟩
            by_cases h3 : 3 = targetOccurence + 1
            · simp only [refreshLoop, herr, hres, scanTarget, hst, if_true, h3,
                WaitResult.done.injEq] at h
              obtain ⟨hk, _⟩ := h
              subst hk
              refine ⟨by omega, by simp, ?_⟩
              intro j h1 h2
              rw [happ, List.getElem?_append_left (by rw [hlen]; exact h2)]
              exact hnew j (by rw [hlen]; omega) (by rw [hlen]; exact h2)
            · have hsw : ¬ (statusDone = statusWaiting) := by decide
              simp only [refreshLoop, herr, hres, scanTarget, hst, if_true, h3, if_false,
                scanPending, hsw, List.length_cons, List.length_nil, Nat.zero_add,
                gt_iff_lt, Nat.lt_one_iff, Bool.true_eq_false, false_and] at h
              rw [← hlen] at h
              rw [happ]
              exact ih (done ++ [.returned r]) 0 (targetOccurence + 1) hnil2
                (by rw [hlen]; omega) hnew h
          · by_cases hw : r.state = statusWaiting
            · have hsd : ¬ (statusWaiting = statusDone) := by decide
              simp only [refreshLoop, herr, hres, scanTarget, hw, hsd, if_false,
                scanPending, if_true, List.length_cons, List.length_nil, Nat.zero_add,
                gt_iff_lt, Nat.lt_one_iff, Bool.true_eq_false, false_and] at h
              rw [← hlen] at h
              rw [happ]
              exact ih (done ++ [.returned r]) 0 0 hnil2 (by omega)
                (fun j h1 h2 => by omega) h
            · simp [refreshLoop, herr, hres, scanTarget, hst, scanPending, hw] at h

/-- The probe of `waitForDomain` never returns a nil result. -/
theorem waitForDomainRefresh_non_nil (lib : Library) (w : World)
    (apiKey username domain : String) (r : RefreshResult)
    (h : waitForDomainRefresh lib w apiKey username domain = .returned r) :
    r.result.isSome = true := by
  unfold waitForDomainRefresh at h
  repeat' split at h
  all_goals first
    | (simp only [CallResult.returned.injEq] at h; rw [← h]; rfl)
    | simp at h

/-- For `waitForDomain` the count does work as the configuration asks: its wait is done
only at a probe that is at least the third one and whose state and the states of the
two probes before it are `done`. -/
theorem waitForDomainState_three_consecutive (lib : Library) (worlds : List World)
    (apiKey username domain : String) (k : Nat) (v : Option ProbeValue)
    (h : waitForDomainState lib worlds apiKey username domain = .done k v) :
    3 ≤ k ∧ k ≤ worlds.length ∧
      ∀ j, k - 3 ≤ j → j < k →
        ∃ w r, worlds[j]? = some w ∧
          waitForDomainRefresh lib w apiKey username domain = .returned r ∧
          r.state = statusDone := by
  unfold waitForDomainState at h
  rw [waitForState_waitConf] at h
  have hnil : ∀ r, CallResult.returned r ∈
      worlds.map (fun w => waitForDomainRefresh lib w apiKey username domain) →
      r.result.isSome = true := by
    intro r hr
    obtain ⟨w, _, hw⟩ := List.mem_map.mp hr
    exact waitForDomainRefresh_non_nil lib w apiKey username domain r hw
  obtain ⟨h1, h2, h3⟩ := refreshLoop_non_nil _ [] 0 0 k v hnil (Nat.le_refl 0)
    (fun j _ hj => by simp at hj) h
  simp only [List.nil_append, List.length_map] at h2 h3
  refine ⟨h1, h2, ?_⟩
  intro j hj1 hj2
  obtain ⟨r, hr, hst⟩ := h3 j hj1 hj2
  rw [List.getElem?_map] at hr
  cases hw : worlds[j]? with
  | none => rw [hw] at hr; simp at hr
  | some w =>
    rw [hw] at hr
    simp only [Option.map_some', Option.some.injEq] at hr
    exact ⟨w, r, rfl, hr, hst⟩

/-- C13 (a pending probe with a nil result does not reset the count): the seven probes
report waiting, done, done, waiting, done, done, done.  `waitForSubuser`,
`waitForAPIKey` and `waitForIPs` return `nil, statusWaiting, nil` for a pending probe,
which `WaitForState` counts as not found without resetting the target count, so the
wait is done after the 5th probe, with only two `done` results in a row before it.
`waitForDomain` returns the non-nil `""` with `statusWaiting`, and its wait is done
after the 7th probe, as the claim says. -/
theorem waitForState_nil_pending_keeps_count :
    (sevenProbes (answer 404 "") (answer 200 "jane")).map (fun w =>
        waitForSubuserRefresh stubLibrary w "key" "jane" "jane@example.org" true)
      = (sevenProbes
          (CallResult.returned ⟨none, statusWaiting, none, none⟩)
          (CallResult.returned
            ⟨some (.user ⟨"jane", "jane@example.org", true⟩), statusDone, none, none⟩)) ∧
    waitForSubuserState stubLibrary (sevenProbes (answer 404 "") (answer 200 "jane"))
        "key" "jane" "jane@example.org" true
      = .done 5 (some (.user ⟨"jane", "jane@example.org", true⟩)) ∧
    waitForAPIKeyState stubLibrary (sevenProbes (answer 404 "") (answer 200 "ci"))
        "key" "id1" "" "ci" ["mail.send"]
      = .done 5 (some (.key ⟨"ci", "", "id1", ["mail.send"]⟩)) ∧
    waitForIPsState stubLibrary (sevenProbes (answer 200 "two") (answer 200 "one"))
        "key" "jane" ["10.0.0.1"]
      = .done 5 (some (.list ["10.0.0.1"])) ∧
    waitForDomainState stubLibrary (sevenProbes (answer 200 "0") (answer 200 "7"))
        "key" "jane" "7"
      = .done 7 (some (.text "7")) := by
  decide

/-- A wait whose probes keep returning `nil, statusWaiting, nil` is given up with a
`NotFoundError` at the 21st probe, whatever the timeout. -/
theorem waitForState_nil_pending_not_found :
    waitForSubuserState stubLibrary (List.replicate 30 (answer 404 ""))
        "key" "jane" "jane@example.org" true
      = .failed 21 (.notFound 21) := by
  decide

/-! ## Properties of the subuser update -/

theorem foldl_first_mem (uw : UpdateWorld) (rest : List Reconciler) (r : Reconciler) :
    rest.foldl (fun first x => if uw.finishedAt x < uw.finishedAt first then x else first) r
      ∈ r :: rest := by
  induction rest generalizing r with
  | nil => simp
  | cons y ys ih =>
    simp only [List.foldl_cons]
    by_cases h : uw.finishedAt y < uw.finishedAt r
    · rw [if_pos h]
      have := ih y
      simp only [List.mem_cons] at this ⊢
      rcases this with h1 | h1
      · exact Or.inr (Or.inl h1)
      · exact Or.inr (Or.inr h1)
    · rw [if_neg h]
      have := ih r
      simp only [List.mem_cons] at this ⊢
      rcases this with h1 | h1
      · exact Or.inl h1
      · exact Or.inr (Or.inr h1)

/-- `eg.Wait()` returns an error as soon as one started function returned one. -/
theorem groupWait_isSome (uw : UpdateWorld) (started : List Reconciler) (r : Reconciler)
    (hr : r ∈ started) (he : (uw.wait r).isSome = true) :
    (groupWait uw started).isSome = true := by
  unfold groupWait
  have hmem : r ∈ started.filter (fun r => (uw.wait r).isSome) :=
    List.mem_filter.mpr ⟨hr, he⟩
  cases hf : started.filter (fun r => (uw.wait r).isSome) with
  | nil => rw [hf] at hmem; simp at hmem
  | cons x rest =>
    simp only
    have h1 := foldl_first_mem uw rest x
    rw [← hf] at h1
    exact (List.mem_filter.mp h1).2

/-- The error of `eg.Wait()` is the error of a started reconciler, and it is nil
exactly when no started reconciler returns an error. -/
theorem groupWait_spec (uw : UpdateWorld) (started : List Reconciler) :
    (∀ e, groupWait uw started = some e → ∃ r, r ∈ started ∧ uw.wait r = some e) ∧
    ((∀ r, r ∈ started → uw.wait r = none) → groupWait uw started = none) := by
  constructor
  · intro e he
    unfold groupWait at he
    cases hf : started.filter (fun r => (uw.wait r).isSome) with
    | nil => rw [hf] at he; simp at he
    | cons x rest =>
      rw [hf] at he
      simp only at he
      have h1 := foldl_first_mem uw rest x
      rw [← hf] at h1
      exact ⟨_, (List.mem_filter.mp h1).1, he⟩
  · intro h
    unfold groupWait
    have : started.filter (fun r => (uw.wait r).isSome) = [] := by
      apply List.filter_eq_nil_iff.mpr
      intro r hr
      rw [h r hr]
      simp
    rw [this]

/-- C17: when no mutation step of `resourceSubuserUpdate` returns an error (each step
runs only for a changed sub-property), the update forms its reconciliation group, and
the group holds exactly the reconcilers whose sub-property changed: `waitForSubuser`
iff `disabled` changed, `waitForDomain` iff `domain` changed, `waitForIPs` iff `ips`
changed, none when nothing changed; the update returns an error whenever a started
reconciler returns one, that error being the error of a started reconciler, and it
returns the result of `resourceSubuserRead` when none does.  When a mutation step
returns an error, the update returns an error without starting any reconciler. -/
theorem resourceSubuserUpdate_group (uw : UpdateWorld) :
    (((uw.hasChange keyDisabled = true → uw.setDisabled = none) ∧
      (uw.hasChange keyIPs = true → uw.marshalIPs = none ∧ uw.putIPs = none) ∧
      (uw.hasChange keyDomain = true → uw.setDomain = none)) →
      ∃ g, (resourceSubuserUpdate uw).group = some g ∧
        (Reconciler.waitForSubuser ∈ g ↔ uw.hasChange keyDisabled = true) ∧
        (Reconciler.waitForDomain ∈ g ↔ uw.hasChange keyDomain = true) ∧
        (Reconciler.waitForIPs ∈ g ↔ uw.hasChange keyIPs = true) ∧
        (uw.hasChange keyDisabled = false → uw.hasChange keyDomain = false →
          uw.hasChange keyIPs = false → g = []) ∧
        (∀ r, r ∈ g → (uw.wait r).isSome = true →
          (resourceSubuserUpdate uw).result.isSome = true ∧
          ∃ r2, r2 ∈ g ∧ (resourceSubuserUpdate uw).result = uw.wait r2) ∧
        ((∀ r, r ∈ g → uw.wait r = none) → (resourceSubuserUpdate uw).result = uw.read)) ∧
    (¬ ((uw.hasChange keyDisabled = true → uw.setDisabled = none) ∧
        (uw.hasChange keyIPs = true → uw.marshalIPs = none ∧ uw.putIPs = none) ∧
        (uw.hasChange keyDomain = true → uw.setDomain = none)) →
      (resourceSubuserUpdate uw).group = none ∧
      (resourceSubuserUpdate uw).result.isSome = true) := by
  have hmem : (Reconciler.waitForSubuser ∈ startedReconcilers uw ↔
        uw.hasChange keyDisabled = true) ∧
      (Reconciler.waitForDomain ∈ startedReconcilers uw ↔ uw.hasChange keyDomain = true) ∧
      (Reconciler.waitForIPs ∈ startedReconcilers uw ↔ uw.hasChange keyIPs = true) ∧
      (uw.hasChange keyDisabled = false → uw.hasChange keyDomain = false →
        uw.hasChange keyIPs = false → startedReconcilers uw = []) := by
    unfold startedReconcilers
    cases uw.hasChange keyDisabled <;> cases uw.hasChange keyDomain <;>
      cases uw.hasChange keyIPs <;> simp
  constructor
  · rintro ⟨h1, h2, h3⟩
    have e1 : (if uw.hasChange keyDisabled = true then uw.setDisabled else none) = none := by
      by_cases hc : uw.hasChange keyDisabled = true
      · rw [if_pos hc]; exact h1 hc
      · rw [if_neg hc]
    have e2 : (if uw.hasChange keyIPs = true then
          (match uw.marshalIPs with
            | some e => some e
            | none => uw.putIPs)
        else none) = none := by
      by_cases hc : uw.hasChange keyIPs = true
      · rw [if_pos hc, (h2 hc).1, (h2 hc).2]
      · rw [if_neg hc]
    have e3 : (if uw.hasChange keyDomain = true then uw.setDomain else none) = none := by
      by_cases hc : uw.hasChange keyDomain = true
      · rw [if_pos hc]; exact h3 hc
      · rw [if_neg hc]
    have hrun : resourceSubuserUpdate uw =
        (match groupWait uw (startedReconcilers uw) with
          | some e => ⟨some (startedReconcilers uw), some e⟩
          | none => ⟨some (startedReconcilers uw), uw.read⟩) := by
      unfold resourceSubuserUpdate
      rw [e1]
      simp only
      rw [e2]
      simp only
      rw [e3]
    refine ⟨startedReconcilers uw, ?_, hmem.1, hmem.2.1, hmem.2.2.1, hmem.2.2.2, ?_, ?_⟩
    · rw [hrun]
      cases groupWait uw (startedReconcilers uw) <;> rfl
    · intro r hr he
      rw [hrun]
      have hs := groupWait_isSome uw _ r hr he
      cases hw : groupWait uw (startedReconcilers uw) with
      | none => rw [hw] at hs; simp at hs
      | some e =>
        obtain ⟨r2, hr2, he2⟩ := (groupWait_spec uw _).1 e hw
        exact ⟨rfl, r2, hr2, he2.symm⟩
    · intro hnone
      rw [hrun, (groupWait_spec uw _).2 hnone]
  · intro hfail
    unfold resourceSubuserUpdate
    by_cases hd : uw.hasChange keyDisabled = true
    · cases hsd : uw.setDisabled with
      | some e => simp [hd, hsd]
      | none =>
        by_cases hi : uw.hasChange keyIPs = true
        · cases hm : uw.marshalIPs with
          | some e => simp [hd, hsd, hi, hm]
          | none =>
            cases hp : uw.putIPs with
            | some e => simp [hd, hsd, hi, hm, hp]
            | none =>
              by_cases hdo : uw.hasChange keyDomain = true
              · cases hsdo : uw.setDomain with
                | some e => simp [hd, hsd, hi, hm, hp, hdo, hsdo]
                | none => exact absurd ⟨fun _ => hsd, fun _ => ⟨hm, hp⟩, fun _ => hsdo⟩ hfail
              · exact absurd ⟨fun _ => hsd, fun _ => ⟨hm, hp⟩, fun h => absurd h hdo⟩ hfail
        · by_cases hdo : uw.hasChange keyDomain = true
          · cases hsdo : uw.setDomain with
            | some e => simp [hd, hsd, hi, hdo, hsdo]
            | none => exact absurd ⟨fun _ => hsd, fun h => absurd h hi, fun _ => hsdo⟩ hfail
          · exact absurd ⟨fun _ => hsd, fun h => absurd h hi, fun h => absurd h hdo⟩ hfail
    · by_cases hi : uw.hasChange keyIPs = true
      · cases hm : uw.marshalIPs with
        | some e => simp [hd, hi, hm]
        | none =>
          cases hp : uw.putIPs with
          | some e => simp [hd, hi, hm, hp]
          | none =>
            by_cases hdo : uw.hasChange keyDomain = true
            · cases hsdo : uw.setDomain with
              | some e => simp [hd, hi, hm, hp, hdo, hsdo]
              | none =>
                exact absurd ⟨fun h => absurd h hd, fun _ => ⟨hm, hp⟩, fun _ => hsdo⟩ hfail
            · exact absurd ⟨fun h => absurd h hd, fun _ => ⟨hm, hp⟩, fun h => absurd h hdo⟩
                hfail
      · by_cases hdo : uw.hasChange keyDomain = true
        · cases hsdo : uw.setDomain with
          | some e => simp [hd, hi, hdo, hsdo]
          | none =>
            exact absurd ⟨fun h => absurd h hd, fun h => absurd h hi, fun _ => hsdo⟩ hfail
        · exact absurd ⟨fun h => absurd h hd, fun h => absurd h hi, fun h => absurd h hdo⟩
            hfail

/-- Witness of `resourceSubuserUpdate_group`: `disabled` and `ips` changed, every
mutation step succeeds, and the reconciler of the IPs fails; the group is
`waitForSubuser, waitForIPs` and the update returns that reconciler's error. -/
theorem resourceSubuserUpdate_group_witness :
    ∃ g, (resourceSubuserUpdate (exampleUpdate ["disabled", "ips"]
        (fun r => if r = .waitForIPs then some (.other "timeout") else none)
        (fun _ => 0))).group = some g ∧
      (Reconciler.waitForSubuser ∈ g) ∧ (Reconciler.waitForDomain ∉ g) ∧
      (Reconciler.waitForIPs ∈ g) :=
  have h := (resourceSubuserUpdate_group (exampleUpdate ["disabled", "ips"]
    (fun r => if r = .waitForIPs then some (.other "timeout") else none)
    (fun _ => 0))).1 ⟨fun _ => rfl, fun _ => ⟨rfl, rfl⟩, fun _ => rfl⟩
  match h with
  | ⟨g, hg, h1, h2, h3, _⟩ =>
    ⟨g, hg, h1.mpr (by decide), fun hm => absurd (h2.mp hm) (by decide), h3.mpr (by decide)⟩

/-! ## Properties of the comparing probes -/

theorem statusWaiting_ne_statusDone : statusWaiting ≠ statusDone := by decide

theorem empty_ne_statusDone : "" ≠ statusDone := by decide

/-- For a duplicate-free `a`, a true `sliceContentsAreEqual(a, b)` makes `a` a
permutation of `b`. -/
theorem sliceContentsAreEqual_perm {α : Type} [DecidableEq α] (a b : List α)
    (ha : a.Nodup) (h : sliceContentsAreEqual a b = true) : a.Perm b := by
  obtain ⟨hlen, hsub⟩ := (sliceContentsAreEqual_iff a b).mp h
  exact (List.subperm_of_subset ha hsub).perm_of_length_le (by omega)

/-- When the probe of `waitForIPs` reports `done`, `getIPs` has returned a list that
`sliceContentsAreEqual` accepts against the desired list. -/
theorem waitForIPsRefresh_done (lib : Library) (w : World) (key username : String)
    (ips : List String) (r : RefreshResult)
    (h : waitForIPsRefresh lib w key username ips = .returned r)
    (hdone : r.state = statusDone) :
    ∃ gotIPs, getIPs lib w key username = .returned (gotIPs, none) ∧
      sliceContentsAreEqual gotIPs ips = true := by
  unfold waitForIPsRefresh at h
  cases hg : getIPs lib w key username with
  | panicked msg => rw [hg] at h; simp at h
  | returned p =>
    obtain ⟨got, err⟩ := p
    rw [hg] at h
    cases err with
    | some e =>
      have hb := getIPs_error_wrapped lib w key username got e hg
      simp only [Option.bind, hb, CallResult.returned.injEq] at h
      rw [← h] at hdone
      exact absurd hdone empty_ne_statusDone
    | none =>
      simp only [Option.bind] at h
      by_cases hc : sliceContentsAreEqual got ips = true
      · exact ⟨got, rfl, hc⟩
      · simp only [hc, Bool.not_false, if_true, CallResult.returned.injEq] at h
        rw [← h] at hdone
        exact absurd hdone statusWaiting_ne_statusDone

/-- When the probe of `waitForAPIKey` reports `done`, `getAPIKey` has returned a key
with the desired name whose scopes `sliceContentsAreEqual` accepts against the desired
scopes. -/
theorem waitForAPIKeyRefresh_done (lib : Library) (w : World)
    (key id onBehalfOf name : String) (scopes : List String) (r : RefreshResult)
    (h : waitForAPIKeyRefresh lib w key id onBehalfOf name scopes = .returned r)
    (hdone : r.state = statusDone) :
    ∃ k, getAPIKey lib w key id onBehalfOf = .returned (some k, none) ∧ k.Name = name ∧
      sliceContentsAreEqual k.Scopes scopes = true := by
  unfold waitForAPIKeyRefresh at h
  cases hg : getAPIKey lib w key id onBehalfOf with
  | panicked msg => rw [hg] at h; simp at h
  | returned p =>
    obtain ⟨got, err⟩ := p
    rw [hg] at h
    cases err with
    | some e =>
      have hb := getAPIKey_error_wrapped lib w key id onBehalfOf got e hg
      simp only [Option.bind, hb, CallResult.returned.injEq] at h
      rw [← h] at hdone
      exact absurd hdone empty_ne_statusDone
    | none =>
      simp only [Option.bind] at h
      cases got with
      | none =>
        simp only [CallResult.returned.injEq] at h
        rw [← h] at hdone
        exact absurd hdone statusWaiting_ne_statusDone
      | some k =>
        simp only at h
        by_cases hn : k.Name = name
        · by_cases hc : sliceContentsAreEqual k.Scopes scopes = true
          · exact ⟨k, rfl, hn, hc⟩
          · simp only [hn, ne_eq, not_true_eq_false, if_false, hc, Bool.not_false, if_true,
              CallResult.returned.injEq] at h
            rw [← h] at hdone
            exact absurd hdone statusWaiting_ne_statusDone
        · simp only [ne_eq, hn, not_false_eq_true, if_true, CallResult.returned.injEq] at h
          rw [← h] at hdone
          exact absurd hdone statusWaiting_ne_statusDone

/-- C19: for lists `a` and `b` without repeated elements, `sliceContentsAreEqual(a, b)`
is true exactly when `a` is a permutation of `b`, which is when `a` and `b` have the
same elements.  So the probe of `waitForIPs` reports `done` only when `getIPs` returned
a list that, if duplicate-free, is a permutation of the desired addresses (it has the
same elements), and it does report `done` for every such list; likewise the probe of
`waitForAPIKey` reports `done` only when `getAPIKey` returned a key with the desired
name whose scopes, if duplicate-free, are a permutation of the desired scopes, and it
does report `done` for every such key. -/
theorem sliceContentsAreEqual_nodup {α : Type} [DecidableEq α] (a b : List α)
    (ha : a.Nodup) (hb : b.Nodup) :
    (sliceContentsAreEqual a b = true ↔ a.Perm b) ∧
    (sliceContentsAreEqual a b = true ↔ ∀ x, x ∈ a ↔ x ∈ b) ∧
    (∀ (lib : Library) (w : World) (key username : String) (ips : List String)
        (r : RefreshResult),
      waitForIPsRefresh lib w key username ips = .returned r → r.state = statusDone →
      ∃ gotIPs, getIPs lib w key username = .returned (gotIPs, none) ∧
        (gotIPs.Nodup → gotIPs.Perm ips ∧ ∀ x, x ∈ gotIPs ↔ x ∈ ips)) ∧
    (∀ (lib : Library) (w : World) (key username : String) (ips gotIPs : List String),
      getIPs lib w key username = .returned (gotIPs, none) → gotIPs.Perm ips →
      waitForIPsRefresh lib w key username ips
        = .returned ⟨some (.list ips), statusDone, none, none⟩) ∧
    (∀ (lib : Library) (w : World) (key id onBehalfOf name : String)
        (scopes : List String) (r : RefreshResult),
      waitForAPIKeyRefresh lib w key id onBehalfOf name scopes = .returned r →
      r.state = statusDone →
      ∃ k, getAPIKey lib w key id onBehalfOf = .returned (some k, none) ∧ k.Name = name ∧
        (k.Scopes.Nodup → k.Scopes.Perm scopes ∧ ∀ x, x ∈ k.Scopes ↔ x ∈ scopes)) ∧
    (∀ (lib : Library) (w : World) (key id onBehalfOf : String) (scopes : List String)
        (k : apiKey),
      getAPIKey lib w key id onBehalfOf = .returned (some k, none) →
      k.Scopes.Perm scopes →
      waitForAPIKeyRefresh lib w key id onBehalfOf k.Name scopes
        = .returned ⟨some (.key k), statusDone, none, none⟩) := by
  have h1 : sliceContentsAreEqual a b = true ↔ a.Perm b := by
    constructor
    · exact sliceContentsAreEqual_perm a b ha
    · intro h
      exact (sliceContentsAreEqual_iff a b).mpr ⟨h.length_eq, fun x hx => h.mem_iff.mp hx⟩
  refine ⟨h1, ?_, ?_, ?_, ?_, ?_⟩
  · rw [h1]
    exact List.perm_ext_iff_of_nodup ha hb
  · intro lib w key username ips r h hdone
    obtain ⟨got, hg, hc⟩ := waitForIPsRefresh_done lib w key username ips r h hdone
    refine ⟨got, hg, fun hnd => ?_⟩
    have hp := sliceContentsAreEqual_perm got ips hnd hc
    exact ⟨hp, fun x => hp.mem_iff⟩
  · intro lib w key username ips got hg hp
    have hc : sliceContentsAreEqual got ips = true :=
      (sliceContentsAreEqual_iff got ips).mpr ⟨hp.length_eq, fun x hx => hp.mem_iff.mp hx⟩
    unfold waitForIPsRefresh
    rw [hg]
    simp [hc]
  · intro lib w key id onBehalfOf name scopes r h hdone
    obtain ⟨k, hg, hn, hc⟩ :=
      waitForAPIKeyRefresh_done lib w key id onBehalfOf name scopes r h hdone
    refine ⟨k, hg, hn, fun hnd => ?_⟩
    have hp := sliceContentsAreEqual_perm k.Scopes scopes hnd hc
    exact ⟨hp, fun x => hp.mem_iff⟩
  · intro lib w key id onBehalfOf scopes k hg hp
    have hc : sliceContentsAreEqual k.Scopes scopes = true :=
      (sliceContentsAreEqual_iff k.Scopes scopes).mpr
        ⟨hp.length_eq, fun x hx => hp.mem_iff.mp hx⟩
    unfold waitForAPIKeyRefresh
    rw [hg]
    simp [hc]

/-- Witness of `sliceContentsAreEqual_nodup`: two orders of the same two addresses, and
a probe of `waitForIPs` whose request is answered with the address 10.0.0.1 while the
desired list is that address. -/
theorem sliceContentsAreEqual_nodup_witness :
    (sliceContentsAreEqual ["10.0.0.1", "10.0.0.2"] ["10.0.0.2", "10.0.0.1"] = true ↔
      List.Perm ["10.0.0.1", "10.0.0.2"] ["10.0.0.2", "10.0.0.1"]) ∧
    ∃ gotIPs, getIPs stubLibrary (answer 200 "one") "key" "jane"
        = .returned (gotIPs, none) ∧
      (gotIPs.Nodup → gotIPs.Perm ["10.0.0.1"] ∧ ∀ x, x ∈ gotIPs ↔ x ∈ ["10.0.0.1"]) :=
  have h := sliceContentsAreEqual_nodup ["10.0.0.1", "10.0.0.2"] ["10.0.0.2", "10.0.0.1"]
    (by decide) (by decide)
  ⟨h.1, h.2.2.1 stubLibrary (answer 200 "one") "key" "jane" ["10.0.0.1"]
    ⟨some (.list ["10.0.0.1"]), statusDone, none, none⟩ (by decide) rfl⟩

end Sendgrid
